import Mathlib

/-!
Verification development for the incident-orchestration agent.

Every definition below is a shallow embedding of the corresponding
TypeScript function of the repository (file and symbol named in each doc
comment).  JavaScript strings are modelled as Lean `String` (sequences of
characters; `.length` is the character count), JavaScript numbers that are
used as integers are modelled as `Nat`/`Int`, nullable values as `Option`,
and thrown exceptions as explicit error results.  External collaborators
(git, the container runtime, the LLM providers, the filesystem, Postgres)
are modelled as oracle inputs: records of the values the collaborator
would have produced, threaded through the embedded control flow.
-/

namespace IncidentAgent

/-! ## JavaScript string primitives used by the source -/

/-- `needle` occurs as a contiguous substring of `hay`, on character
lists: test a prefix match at every suffix. -/
def listHasInfix (needle : List Char) : List Char → Bool
  | [] => needle.isEmpty
  | c :: rest => needle.isPrefixOf (c :: rest) || listHasInfix needle rest

/-- `needle` occurs as a contiguous substring of `hay`
(JavaScript `String.prototype.includes`). -/
def jsIncludes (hay needle : String) : Bool :=
  listHasInfix needle.toList hay.toList

/-- The JavaScript white-space set recognised by `String.prototype.trim`
(WhiteSpace plus LineTerminator productions). -/
def jsIsWs (c : Char) : Bool :=
  c = ' ' || c = '\t' || c = '\n' || c = '\r' ||
  c = Char.ofNat 11 || c = Char.ofNat 12 ||
  c = Char.ofNat 0x00A0 || c = Char.ofNat 0x1680 ||
  (0x2000 ≤ c.toNat && c.toNat ≤ 0x200A) ||
  c = Char.ofNat 0x2028 || c = Char.ofNat 0x2029 ||
  c = Char.ofNat 0x202F || c = Char.ofNat 0x205F ||
  c = Char.ofNat 0x3000 || c = Char.ofNat 0xFEFF

/-- JavaScript `String.prototype.trim`. -/
def jsTrim (s : String) : String :=
  ⟨((s.toList.dropWhile jsIsWs).reverse.dropWhile jsIsWs).reverse⟩

/-- JavaScript `String.prototype.trimEnd`. -/
def jsTrimEnd (s : String) : String :=
  ⟨(s.toList.reverse.dropWhile jsIsWs).reverse⟩

/-- JavaScript `String.prototype.slice(a, b)` for `0 ≤ a`, `0 ≤ b`
(the only form the embedded code uses). -/
def jsSlice (s : String) (a b : Nat) : String :=
  ⟨(s.toList.drop a).take (b - a)⟩

/-- A JavaScript string is truthy iff it is non-empty. -/
def jsTruthy (s : String) : Bool := !(s = "")

/-- Truthiness of `string | null | undefined`: `null`, `undefined` and the
empty string are falsy. -/
def jsTruthyOpt : Option String → Bool
  | none => false
  | some s => jsTruthy s

/-! ## C8 — provider resolution (`src/packages/agent/src/lib/llm.ts`, `resolveProvider`) -/

/-- The `LlmProvider` union type of `llm.ts`. -/
inductive LlmProvider
  | auto | openai | anthropic | gemini
deriving DecidableEq, Repr

/-- The concrete (non-`auto`) providers. -/
inductive LlmVendor
  | openai | anthropic | gemini
deriving DecidableEq, Repr

/-- The three model identifiers read from the configuration
(`OPENAI_MODEL`, `ANTHROPIC_MODEL`, `GEMINI_MODEL`). -/
structure LlmModels where
  openaiModel : String
  anthropicModel : String
  geminiModel : String
deriving Repr

/-- `resolveProvider(provider, openaiKey?, anthropicKey?, geminiKey?)` from
`llm.ts`.  A key argument is `Option String`; JavaScript tests it for
truthiness, so `none` and `some ""` are both unavailable. -/
def resolveProvider (models : LlmModels) (provider : LlmProvider)
    (openaiKey anthropicKey geminiKey : Option String) :
    Option (LlmVendor × String) :=
  if provider = .openai then
    if jsTruthyOpt openaiKey then some (.openai, models.openaiModel) else none
  else if provider = .anthropic then
    if jsTruthyOpt anthropicKey then some (.anthropic, models.anthropicModel) else none
  else if provider = .gemini then
    if jsTruthyOpt geminiKey then some (.gemini, models.geminiModel) else none
  else
    if jsTruthyOpt openaiKey then some (.openai, models.openaiModel)
    else if jsTruthyOpt anthropicKey then some (.anthropic, models.anthropicModel)
    else if jsTruthyOpt geminiKey then some (.gemini, models.geminiModel)
    else none

end IncidentAgent

namespace IncidentAgent

/-! ## A model of JavaScript `JSON.parse`

`extractSignal` in `incidentActivities.ts` calls `JSON.parse` on each log
message inside a try/catch.  The grammar below is the JSON grammar that
`JSON.parse` accepts (values, objects with last-duplicate-key-wins,
arrays, strings with escapes, numbers kept as their lexeme since the
detector never reads a numeric value, `true`/`false`/`null`, and the four
JSON whitespace characters).  Recursion is fuelled by the input length,
which bounds the nesting depth. -/

/-- A parsed JSON value.  Number values are kept as their source lexeme:
the embedded code only ever asks `typeof x === "string"`. -/
inductive Json
  | null
  | bool (b : Bool)
  | num (lexeme : String)
  | str (s : String)
  | arr (items : List Json)
  | obj (fields : List (String × Json))

/-- JSON whitespace (`space`, `tab`, `newline`, `carriage return`). -/
def jsonWs (c : Char) : Bool := c = ' ' || c = '\t' || c = '\n' || c = '\r'

/-- The `{`, `}` and backtick characters, by code point. -/
def lbraceChar : Char := Char.ofNat 123

def rbraceChar : Char := Char.ofNat 125

def hexVal (c : Char) : Option Nat :=
  if '0' ≤ c ∧ c ≤ '9' then some (c.toNat - 48)
  else if 'a' ≤ c ∧ c ≤ 'f' then some (c.toNat - 87)
  else if 'A' ≤ c ∧ c ≤ 'F' then some (c.toNat - 55)
  else none

/-- JSON string body (opening quote already consumed): literal characters
above U+001F, the eight single-character escapes, and `\uXXXX`. -/
def parseJsonStringGo : Nat → List Char → List Char → Option (String × List Char)
  | 0, _, _ => none
  | fuel + 1, acc, cs =>
    match cs with
    | [] => none
    | c :: rest =>
      if c = '"' then some (⟨acc.reverse⟩, rest)
      else if c = '\\' then
        match rest with
        | [] => none
        | e :: rest2 =>
          if e = '"' then parseJsonStringGo fuel ('"' :: acc) rest2
          else if e = '\\' then parseJsonStringGo fuel ('\\' :: acc) rest2
          else if e = '/' then parseJsonStringGo fuel ('/' :: acc) rest2
          else if e = 'b' then parseJsonStringGo fuel (Char.ofNat 8 :: acc) rest2
          else if e = 'f' then parseJsonStringGo fuel (Char.ofNat 12 :: acc) rest2
          else if e = 'n' then parseJsonStringGo fuel ('\n' :: acc) rest2
          else if e = 'r' then parseJsonStringGo fuel ('\r' :: acc) rest2
          else if e = 't' then parseJsonStringGo fuel ('\t' :: acc) rest2
          else if e = 'u' then
            match rest2 with
            | h1 :: h2 :: h3 :: h4 :: rest3 =>
              match hexVal h1, hexVal h2, hexVal h3, hexVal h4 with
              | some a, some b, some c2, some d =>
                parseJsonStringGo fuel
                  (Char.ofNat (a * 4096 + b * 256 + c2 * 16 + d) :: acc) rest3
              | _, _, _, _ => none
            | _ => none
          else none
      else if c.toNat < 32 then none
      else parseJsonStringGo fuel (c :: acc) rest

/-- JSON number lexeme: `-? (0 | [1-9][0-9]*) (. [0-9]+)? ([eE][+-]?[0-9]+)?`. -/
def parseJsonNumber (cs : List Char) : Option (String × List Char) :=
  let (negPart, cs1) :=
    match cs with
    | '-' :: r => ((['-'] : List Char), r)
    | _ => ([], cs)
  let intRes : Option (List Char × List Char) :=
    match cs1 with
    | '0' :: r => some (['0'], r)
    | c :: _ =>
      if c.isDigit then some (cs1.takeWhile Char.isDigit, cs1.dropWhile Char.isDigit)
      else none
    | [] => none
  match intRes with
  | none => none
  | some (intPart, cs2) =>
    let fracRes : Option (List Char × List Char) :=
      match cs2 with
      | '.' :: r =>
        let ds := r.takeWhile Char.isDigit
        if ds.isEmpty then none
        else some ('.' :: ds, r.dropWhile Char.isDigit)
      | _ => some ([], cs2)
    match fracRes with
    | none => none
    | some (fracPart, cs3) =>
      let expRes : Option (List Char × List Char) :=
        match cs3 with
        | e :: r =>
          if e = 'e' ∨ e = 'E' then
            let (sgn, r2) :=
              match r with
              | '+' :: r' => ((['+'] : List Char), r')
              | '-' :: r' => ((['-'] : List Char), r')
              | _ => ([], r)
            let ds := r2.takeWhile Char.isDigit
            if ds.isEmpty then none
            else some (e :: (sgn ++ ds), r2.dropWhile Char.isDigit)
          else some ([], cs3)
        | [] => some ([], cs3)
      match expRes with
      | none => none
      | some (expPart, cs4) =>
        some (⟨negPart ++ intPart ++ fracPart ++ expPart⟩, cs4)

/-- Parser mode: a JSON value, the items of an array after `[` or `,`, or
the members of an object after the opening brace or `,`; `first` marks
the position directly after the opening bracket, where the closing
bracket is allowed. -/
inductive PMode
  | value
  | arrItems (first : Bool)
  | objFields (first : Bool)

/-- The JSON grammar, one structurally fuelled function covering values,
array items, and object members. -/
def parseJson : Nat → PMode → List Char → Option (Json × List Char)
  | 0, _, _ => none
  | fuel + 1, .value, cs0 =>
    let cs := cs0.dropWhile jsonWs
    match cs with
    | [] => none
    | c :: rest =>
      if c = '"' then
        match parseJsonStringGo (rest.length + 1) [] rest with
        | some (s, r) => some (.str s, r)
        | none => none
      else if c = lbraceChar then parseJson fuel (.objFields true) rest
      else if c = '[' then parseJson fuel (.arrItems true) rest
      else if ("true".toList).isPrefixOf cs then some (.bool true, cs.drop 4)
      else if ("false".toList).isPrefixOf cs then some (.bool false, cs.drop 5)
      else if ("null".toList).isPrefixOf cs then some (.null, cs.drop 4)
      else
        match parseJsonNumber cs with
        | some (lexeme, r) => some (.num lexeme, r)
        | none => none
  | fuel + 1, .arrItems first, cs0 =>
    let cs := cs0.dropWhile jsonWs
    match cs with
    | ']' :: r => if first then some (.arr [], r) else none
    | _ =>
      match parseJson fuel .value cs with
      | none => none
      | some (v, r) =>
        match r.dropWhile jsonWs with
        | ']' :: r2 => some (.arr [v], r2)
        | ',' :: r2 =>
          match parseJson fuel (.arrItems false) r2 with
          | some (.arr vs, r3) => some (.arr (v :: vs), r3)
          | _ => none
        | _ => none
  | fuel + 1, .objFields first, cs0 =>
    let cs := cs0.dropWhile jsonWs
    match cs with
    | c :: r =>
      if c = rbraceChar ∧ first then some (.obj [], r)
      else if c = '"' then
        match parseJsonStringGo (r.length + 1) [] r with
        | none => none
        | some (key, r2) =>
          match r2.dropWhile jsonWs with
          | ':' :: r3 =>
            match parseJson fuel .value r3 with
            | none => none
            | some (v, r4) =>
              match r4.dropWhile jsonWs with
              | ',' :: r5 =>
                match parseJson fuel (.objFields false) r5 with
                | some (.obj fs, r6) => some (.obj ((key, v) :: fs), r6)
                | _ => none
              | c2 :: r5 =>
                if c2 = rbraceChar then some (.obj [(key, v)], r5) else none
              | _ => none
          | _ => none
      else none
    | [] => none

/-- `JSON.parse(text)` returning `none` where it would throw. -/
def jsonParse (s : String) : Option Json :=
  match parseJson (s.length + 16) .value s.toList with
  | some (v, rest) => if (rest.dropWhile jsonWs).isEmpty then some v else none
  | none => none

/-- Property access `v[key]` for a parsed value: a field of an object
(last duplicate wins, as in `JSON.parse`), `none` (undefined) otherwise. -/
def jsonField (v : Json) (key : String) : Option Json :=
  match v with
  | .obj fields => ((fields.reverse).find? (fun f => f.1 = key)).map (·.2)
  | _ => none

/-! ## C3 — incident detector
(`src/packages/agent/src/activities/incidentActivities.ts`) -/

/-- `LogEvent` from `lib/types.ts`: a timestamp rendered as a decimal
nanosecond string, the raw message, and the stream labels (unused by the
detector). -/
structure LogEvent where
  timestamp : String
  message : String
  labels : List (String × String)
deriving Repr, DecidableEq

/-- The signal record produced by `extractSignal`. -/
structure Signal where
  key : String
  severity : String
  label : String
deriving Repr, DecidableEq

/-- `extractSignal(log)` from `incidentActivities.ts`.  The try/catch
around `JSON.parse` also swallows the `TypeError` thrown by `parsed.msg`
when the message parses to `null`; in both cases `parsed` ends up `null`
and the raw message is used. -/
def extractSignal (log : LogEvent) : Signal :=
  let attempt := jsonParse log.message
  let state : String × Option Json :=
    match attempt with
    | none => (log.message, none)
    | some .null => (log.message, none)
    | some v =>
      match jsonField v "msg" with
      | some (.str m) => (m, some v)
      | _ => (log.message, some v)
  let message := state.1
  let parsed := state.2
  let type_ :=
    match parsed.bind (fun v => jsonField v "type") with
    | some (.str t) => t
    | _ => ""
  let route :=
    match parsed.bind (fun v => jsonField v "route") with
    | some (.str r) => r
    | _ => "unknown"
  if type_ = "error_burst" || jsIncludes message "Synthetic error burst" then
    ⟨"error_burst:" ++ route, "high", "error_burst"⟩
  else if jsIncludes message "Simulated error" then
    ⟨"error:" ++ route, "high", "error"⟩
  else if jsIncludes message "Slow response" then
    ⟨"slow:" ++ route, "medium", "latency"⟩
  else if jsIncludes message "Failed login attempt" then
    ⟨"auth:" ++ route, "low", "auth"⟩
  else
    ⟨"other:" ++ route, "low", "unknown"⟩

/-- A signal bucket of `detectIncidents`. -/
structure Bucket where
  severity : String
  label : String
  messages : List String
  timestamps : List String
deriving Repr, DecidableEq

/-- Insertion-ordered `Map.set` on an association list: update in place if
the key exists, append otherwise. -/
def mapSet (buckets : List (String × Bucket)) (key : String) (b : Bucket) :
    List (String × Bucket) :=
  if buckets.any (fun kv => kv.1 = key) then
    buckets.map (fun kv => if kv.1 = key then (key, b) else kv)
  else buckets ++ [(key, b)]

/-- `Map.get` on the association list. -/
def mapGet (buckets : List (String × Bucket)) (key : String) : Option Bucket :=
  (buckets.find? (fun kv => kv.1 = key)).map (·.2)

/-- The bucket-building loop of `detectIncidents`: `bucket = get(key) ??
fresh bucket`; push message and timestamp; `set(key, bucket)`. -/
def detectBuckets (logs : List LogEvent) : List (String × Bucket) :=
  logs.foldl
    (fun buckets log =>
      let signal := extractSignal log
      let bucket :=
        (mapGet buckets signal.key).getD
          ⟨signal.severity, signal.label, [], []⟩
      let bucket' :=
        { bucket with
            messages := bucket.messages ++ [log.message]
            timestamps := bucket.timestamps ++ [log.timestamp] }
      mapSet buckets signal.key bucket')
    []

/-- The JavaScript `<` relation on strings: lexicographic by code unit
(equal to code-point order on the basic plane, which covers every string
the detector handles). -/
def jsStrLtList : List Char → List Char → Bool
  | [], [] => false
  | [], _ :: _ => true
  | _ :: _, [] => false
  | a :: as, b :: bs =>
    if a.toNat < b.toNat then true
    else if b.toNat < a.toNat then false
    else jsStrLtList as bs

def jsStrLe (x y : String) : Bool := !(jsStrLtList y.toList x.toList)

/-- JavaScript `Array.prototype.sort()` with the default comparator on an
array of strings: a stable sort under code-unit lexicographic string
order (insertion sort is one such stable sort). -/
def jsInsertStr (x : String) : List String → List String
  | [] => [x]
  | y :: ys => if jsStrLe x y then x :: y :: ys else y :: jsInsertStr x ys

def jsSortStrings (l : List String) : List String :=
  l.foldr jsInsertStr []

/-- `Incident` from `lib/types.ts`. -/
structure Incident where
  id : String
  title : String
  severity : String
  evidence : List String
  firstSeen : String
  lastSeen : String
  count : Nat
deriving Repr, DecidableEq

/-- `detectIncidents(logs)` from `incidentActivities.ts`.  `uuid` supplies
the value of `randomUUID()` for the k-th produced incident.  Buckets are
never empty, so `sortedTimes[0]` and `sortedTimes[len−1]` are modelled
with a `""` default that is never reached. -/
def detectIncidents (uuid : Nat → String) (logs : List LogEvent) :
    List (Incident × List String) :=
  let buckets := detectBuckets logs
  buckets.enum.map (fun p =>
    let key := p.2.1
    let bucket := p.2.2
    let sortedTimes := jsSortStrings bucket.timestamps
    let firstSeen := (sortedTimes.head?).getD ""
    let lastSeen := (sortedTimes.getLast?).getD ""
    (⟨uuid p.1,
      "Incident: " ++ bucket.label ++ " (" ++ key ++ ")",
      bucket.severity,
      bucket.messages.take 5,
      firstSeen,
      lastSeen,
      bucket.messages.length⟩,
     [bucket.label]))

/-- C3 (code bug): `detectIncidents` sorts bucket timestamps with the
default string sort, not numerically.  For the bucket with nanosecond
timestamps 9 and 10 the numeric order gives `firstSeen = "9"`,
`lastSeen = "10"`, but the code produces `firstSeen = "10"`,
`lastSeen = "9"` because `"10" < "9"` in string order. -/
theorem detectIncidents_sorts_timestamps_as_strings :
    (detectIncidents (fun _ => "id-0")
        [⟨"9", "Simulated error", []⟩, ⟨"10", "Simulated error", []⟩]).map
        (fun p => (p.1.firstSeen, p.1.lastSeen, p.1.count))
      = [("10", "9", 2)] := by decide

/-! ## POSIX path model (`node:path` as used by `autoFix.ts`)

`path.resolve`, `path.join` and `String.prototype.startsWith` as used by
`resolveSafePath`, `applyRewriteFiles` and `validateRewriteFiles`.  The
runtime is assumed POSIX (forward-slash separators), matching the
deployment the repository documents, and the process working directory
`cwd` is an absolute path (Node guarantees `path.resolve` results are
absolute). -/

/-- `pre.isPrefixOf s` on character lists
(JavaScript `String.prototype.startsWith`). -/
def strStartsWith (s pre : String) : Bool := pre.toList.isPrefixOf s.toList

/-- Split a character list on a separator character; `""` splits to
`[""]`. -/
def splitCharList (sep : Char) (cs : List Char) : List (List Char) :=
  cs.foldr
    (fun c acc =>
      match acc with
      | cur :: rest => if c = sep then [] :: cur :: rest else (c :: cur) :: rest
      | [] => [[]])
    [[]]

def splitSlashStr (s : String) : List String :=
  (splitCharList '/' s.toList).map (fun l => (⟨l⟩ : String))

def joinSlash : List String → String
  | [] => ""
  | [s] => s
  | s :: rest => s ++ "/" ++ joinSlash rest

/-- Node's path-segment normalisation: drop empty and `.` segments, make
`..` pop the previous segment; `allowAboveRoot` keeps leading `..`
segments (relative join) instead of dropping them (absolute resolve). -/
def normalizeSegs (allowAboveRoot : Bool) (segs : List String) : List String :=
  segs.foldl
    (fun acc seg =>
      if seg = "" ∨ seg = "." then acc
      else if seg = ".." then
        match acc.getLast? with
        | some last => if last = ".." then acc ++ [".."] else acc.dropLast
        | none => if allowAboveRoot then [".."] else []
      else acc ++ [seg])
    []

/-- `path.resolve(root, relativePath)` on POSIX with working directory
`cwd`. -/
def posixResolve (cwd root rel : String) : String :=
  let joined :=
    if strStartsWith rel "/" then rel
    else if strStartsWith root "/" then root ++ "/" ++ rel
    else cwd ++ "/" ++ root ++ "/" ++ rel
  "/" ++ joinSlash (normalizeSegs false (splitSlashStr joined))

/-- `path.join(a, b)` on POSIX (for the non-empty `a` the source passes). -/
def posixJoin (a b : String) : String :=
  let joined := a ++ "/" ++ b
  let isAbs := strStartsWith joined "/"
  let body := joinSlash (normalizeSegs (!isAbs) (splitSlashStr joined))
  if isAbs then "/" ++ body
  else if body = "" then "." else body

/-! ## C9 — `resolveSafePath` / `applyRewriteFiles`
(`src/packages/agent/src/autofix/autoFix.ts`) -/

/-- `DENYLIST_PATHS` from `autoFix.ts`. -/
def DENYLIST_PATHS : List String := [".env", ".env.local", "secrets", "credentials"]

/-- `MAX_FILE_BYTES` from `autoFix.ts` (rewrite-file cap). -/
def AUTOFIX_MAX_FILE_BYTES : Nat := 500000

/-- `MAX_DIFF_BYTES` from `autoFix.ts`. -/
def MAX_DIFF_BYTES : Nat := 200000

/-- A path hits the denylist when it contains one of the forbidden
segments as a substring (`file.path.includes(segment)`). -/
def hitsDenylist (p : String) : Bool :=
  DENYLIST_PATHS.any (fun seg => jsIncludes p seg)

/-- One rewrite file of a `FixRewrite` proposal. -/
structure RewriteFile where
  path : String
  content : String
deriving Repr, DecidableEq

/-- `resolveSafePath(root, relativePath)`: resolve against the root and
throw `Unsafe path` unless the resolved path has `root` as a string
prefix (`resolved.startsWith(root)`). -/
def resolveSafePath (cwd root rel : String) : Except String String :=
  let resolved := posixResolve cwd root rel
  if strStartsWith resolved root then .ok resolved
  else .error ("Unsafe path: " ++ rel)

/-- `applyRewriteFiles(root, files)`: per file, reject denylisted paths,
oversized contents, and unsafe resolved paths (in that order), else write
the file.  The returned pair is the list of target paths written before
any failure, and the first thrown error message. -/
def applyRewriteFiles (cwd root : String) :
    List RewriteFile → List String × Option String
  | [] => ([], none)
  | f :: rest =>
    if hitsDenylist f.path then
      ([], some ("Unsafe file in rewrite: " ++ f.path))
    else if AUTOFIX_MAX_FILE_BYTES < f.content.length then
      ([], some ("Rewrite file too large: " ++ f.path))
    else
      match resolveSafePath cwd root f.path with
      | .error e => ([], some e)
      | .ok target =>
        let tail := applyRewriteFiles cwd root rest
        (target :: tail.1, tail.2)

/-! ## C7 — `validateRewriteFiles` (`src/packages/agent/src/autofix/autoFix.ts`) -/

/-- Split on `/\r?\n/`: `\r\n` and bare `\n` are separators; a lone `\r`
is an ordinary character. -/
def splitRNAux : List Char → List Char → List (List Char)
  | acc, [] => [acc.reverse]
  | acc, '\r' :: '\n' :: rest => acc.reverse :: splitRNAux [] rest
  | acc, '\n' :: rest => acc.reverse :: splitRNAux [] rest
  | acc, c :: rest => splitRNAux (c :: acc) rest

def splitLinesRN (s : String) : List String :=
  (splitRNAux [] s.toList).map (fun l => (⟨l⟩ : String))

/-- The result record `{ ok, reason? }` of `validateRewriteFiles`. -/
structure VCheck where
  ok : Bool
  reason : Option String
deriving Repr, DecidableEq

/-- The non-blank trailing-trimmed lines of an original file, as computed
by `validateRewriteFiles`. -/
def nonBlankLines (orig : String) : List String :=
  ((splitLinesRN orig).map jsTrimEnd).filter (fun l => 0 < (jsTrim l).length)

/-- The anchor lines: `slice(0, 3)` and `slice(-3)` of the non-blank
lines. -/
def anchorLines (lines : List String) : List String :=
  lines.take 3 ++ lines.drop (lines.length - 3)

/-- The anchor check of `validateRewriteFiles` on the non-blank lines of
an original: with at least 20 lines, fail unless some anchor longer than
3 characters occurs verbatim in the rewrite content
(`anchors.length > 0 && matches < 1`). -/
def anchorCheckFails (lines : List String) (content : String) : Bool :=
  if 20 ≤ lines.length then
    let anchors := anchorLines lines
    let matched :=
      (anchors.filter (fun l => 3 < l.length && jsIncludes content l)).length
    decide (0 < anchors.length) && decide (matched < 1)
  else false

/-- `validateRewriteFiles(basePath, files)`; `readF` models
`fs.readFile` (`none` where it throws, and the catch sets `original =
null`).  Validation of each file runs only when the original is truthy
(non-empty): the anchor check above, then a size check (rewrite at least
half the original length). -/
def validateRewriteFiles (readF : String → Option String) (basePath : String) :
    List RewriteFile → VCheck
  | [] => ⟨true, none⟩
  | f :: rest =>
    match readF (posixJoin basePath f.path) with
    | some orig =>
      if jsTruthy orig then
        if anchorCheckFails (nonBlankLines orig) f.content then
          ⟨false, some ("rewrite_missing_anchors:" ++ f.path)⟩
        else if 2 * f.content.length < orig.length then
          ⟨false, some ("rewrite_too_short:" ++ f.path)⟩
        else validateRewriteFiles readF basePath rest
      else validateRewriteFiles readF basePath rest
    | none => validateRewriteFiles readF basePath rest

theorem resolveSafePath_ok_iff (cwd root rel t : String)
    (h : resolveSafePath cwd root rel = .ok t) :
    t = posixResolve cwd root rel ∧ strStartsWith t root = true := by
  unfold resolveSafePath at h
  by_cases hc : strStartsWith (posixResolve cwd root rel) root = true
  · simp only [if_pos hc, Except.ok.injEq] at h
    exact ⟨h.symm, h ▸ hc⟩
  · simp [hc] at h

/-- C9, amended: `resolveSafePath` rejects exactly the resolved paths that
do not have the workspace root as a *string prefix* (not: that do not lie
under the root directory), throwing `Unsafe path` before the file is
written; consequently every path `applyRewriteFiles` writes has the root
as a string prefix.  A sibling directory sharing the root as a string
prefix (see `resolveSafePath_escapes_root`) is not rejected. -/
theorem applyRewriteFiles_prefix_guard (cwd root : String)
    (files : List RewriteFile) :
    (∀ t ∈ (applyRewriteFiles cwd root files).1, strStartsWith t root = true) ∧
    (∀ rel, strStartsWith (posixResolve cwd root rel) root = false →
      resolveSafePath cwd root rel = .error ("Unsafe path: " ++ rel)) := by
  constructor
  · induction files with
    | nil => intro t ht; simp [applyRewriteFiles] at ht
    | cons f rest ih =>
      intro t ht
      simp only [applyRewriteFiles] at ht
      by_cases h1 : hitsDenylist f.path = true
      · simp [h1] at ht
      · by_cases h2 : AUTOFIX_MAX_FILE_BYTES < f.content.length
        · simp [h1, h2] at ht
        · rcases hres : resolveSafePath cwd root f.path with e | target
          · simp [h1, h2, hres] at ht
          · simp only [h1, h2, hres, Bool.false_eq_true, if_neg, if_false,
              List.mem_cons] at ht
            rcases ht with rfl | ht
            · exact (resolveSafePath_ok_iff cwd root f.path t hres).2
            · exact ih t ht
  · intro rel hneg
    unfold resolveSafePath
    rw [if_neg (by simp [hneg])]

/-- Closed witness for `applyRewriteFiles_prefix_guard`: a benign rewrite
file is written inside the root. -/
theorem applyRewriteFiles_prefix_guard_witness :
    strStartsWith "/w/repo/src/a.ts" "/w/repo" = true :=
  (applyRewriteFiles_prefix_guard "/w" "/w/repo" [⟨"src/a.ts", "x"⟩]).1
    "/w/repo/src/a.ts" (by decide)

/-- C9, counterexample to the claim as stated: `../repo-evil/x.txt`
resolves to `/srv/ws/repo-evil/x.txt`, which does not lie under the root
`/srv/ws/repo` (it is neither the root nor below `root ++ "/"`), yet
`resolveSafePath` accepts it — `startsWith` is a plain string-prefix test
— and `applyRewriteFiles` writes it without any `Unsafe path` error. -/
theorem resolveSafePath_escapes_root :
    (resolveSafePath "/srv" "/srv/ws/repo" "../repo-evil/x.txt").toOption
      = some "/srv/ws/repo-evil/x.txt" ∧
    (applyRewriteFiles "/srv" "/srv/ws/repo" [⟨"../repo-evil/x.txt", "data"⟩]).1
      = ["/srv/ws/repo-evil/x.txt"] ∧
    (applyRewriteFiles "/srv" "/srv/ws/repo" [⟨"../repo-evil/x.txt", "data"⟩]).2
      = none ∧
    "/srv/ws/repo-evil/x.txt" ≠ "/srv/ws/repo" ∧
    strStartsWith "/srv/ws/repo-evil/x.txt" ("/srv/ws/repo" ++ "/") = false := by
  decide

/-- Join lines with `\n` (test-data helper). -/
def nlJoin : List String → String
  | [] => ""
  | [s] => s
  | s :: rest => s ++ "\n" ++ nlJoin rest

/-- C7, counterexample to the claim as stated: an original of twenty
non-blank lines `ab`, a rewrite that contains the anchor `ab` verbatim
and is longer than half the original.  The claim says the validation
passes; the code fails it with `rewrite_missing_anchors`, because only
anchors longer than 3 characters count as matches. -/
theorem validateRewriteFiles_short_anchor_cex :
    (validateRewriteFiles (fun _ => some (nlJoin (List.replicate 20 "ab")))
        "/repo" [⟨"f.txt", "ab" ++ (⟨List.replicate 40 'z'⟩ : String)⟩]).ok
      = false ∧
    (validateRewriteFiles (fun _ => some (nlJoin (List.replicate 20 "ab")))
        "/repo" [⟨"f.txt", "ab" ++ (⟨List.replicate 40 'z'⟩ : String)⟩]).reason
      = some "rewrite_missing_anchors:f.txt" ∧
    20 ≤ (nonBlankLines (nlJoin (List.replicate 20 "ab"))).length ∧
    "ab" ∈ anchorLines (nonBlankLines (nlJoin (List.replicate 20 "ab"))) ∧
    jsIncludes ("ab" ++ (⟨List.replicate 40 'z'⟩ : String)) "ab" = true ∧
    (nlJoin (List.replicate 20 "ab")).length
      ≤ 2 * ("ab" ++ (⟨List.replicate 40 'z'⟩ : String)).length := by
  decide

/-! ## C1/C4 — diff helpers (`src/packages/agent/src/autofix/autoFix.ts`) -/

/-- The backtick character, by code point. -/
def fenceTick : Char := Char.ofNat 96

/-- Global replace of the pattern three-backticks `[a-z]*` optional
newline with the empty string (first `.replace` of `normalizeDiff`),
scanning left to right without overlap. -/
def stripFences : Nat → List Char → List Char
  | 0, cs => cs
  | _, [] => []
  | fuel + 1, c :: rest =>
    if c = fenceTick then
      match rest with
      | c2 :: c3 :: rest2 =>
        if c2 = fenceTick ∧ c3 = fenceTick then
          let afterLetters := rest2.dropWhile (fun ch => 'a' ≤ ch ∧ ch ≤ 'z')
          let afterNl :=
            match afterLetters with
            | '\n' :: r => r
            | _ => afterLetters
          stripFences fuel afterNl
        else c :: stripFences fuel rest
      | _ => c :: stripFences fuel rest
    else c :: stripFences fuel rest

/-- Global replace of bare three-backticks with the empty string (second
`.replace` of `normalizeDiff`). -/
def stripTicks : Nat → List Char → List Char
  | 0, cs => cs
  | _, [] => []
  | fuel + 1, c :: rest =>
    if c = fenceTick then
      match rest with
      | c2 :: c3 :: rest2 =>
        if c2 = fenceTick ∧ c3 = fenceTick then stripTicks fuel rest2
        else c :: stripTicks fuel rest
      | _ => c :: stripTicks fuel rest
    else c :: stripTicks fuel rest

/-- `normalizeDiff(diff)` from `autoFix.ts`. -/
def normalizeDiff (diff : String) : String :=
  if jsIncludes diff "```" then
    jsTrim ⟨stripTicks (diff.length + 1) (stripFences (diff.length + 1) diff.toList)⟩
  else jsTrim diff

/-- `isUnifiedDiff(diff)` from `autoFix.ts`. -/
def isUnifiedDiff (diff : String) : Bool :=
  jsIncludes diff "--- a/" && jsIncludes diff "+++ b/" && jsIncludes diff "@@"

/-- The line terminators recognised by a multiline `^…$` JavaScript
regex. -/
def lineTermChar (c : Char) : Bool :=
  c = '\n' || c = '\r' || c = Char.ofNat 0x2028 || c = Char.ofNat 0x2029

def splitTermAux : List Char → List Char → List (List Char)
  | acc, [] => [acc.reverse]
  | acc, c :: rest =>
    if lineTermChar c then acc.reverse :: splitTermAux [] rest
    else splitTermAux (c :: acc) rest

def regexLines (s : String) : List String :=
  (splitTermAux [] s.toList).map (fun l => (⟨l⟩ : String))

/-- Lazy-group scan for `^diff --git a\/(.+?) b\/(.+)$` applied to one
line: the shortest non-empty first group followed by a space, `b/`, and a
non-empty second group reaching the end of the line. -/
def gitLineScan : List Char → List Char → Option String
  | g1rev, rem =>
    if g1rev.isEmpty = false ∧ (" b/".toList).isPrefixOf rem
        ∧ (rem.drop 3).isEmpty = false then
      some ⟨rem.drop 3⟩
    else
      match rem with
      | [] => none
      | c :: rest => gitLineScan (c :: g1rev) rest

def parseGitLine (line : String) : Option String :=
  if strStartsWith line "diff --git a/" then
    gitLineScan [] (line.toList.drop "diff --git a/".length)
  else none

/-- Match `^--- a\/(.+)$` on one line. -/
def minusLineParse (line : String) : Option String :=
  if strStartsWith line "--- a/" then
    let rest := line.toList.drop "--- a/".length
    if rest.isEmpty then none else some ⟨rest⟩
  else none

/-- `extractDiffFiles(diff)` from `autoFix.ts`: the second groups of all
`diff --git a/… b/…` lines, falling back to the groups of `--- a/…` lines
when there are none. -/
def extractDiffFiles (diff : String) : List String :=
  let lines := regexLines diff
  let files := lines.filterMap parseGitLine
  if files.isEmpty then lines.filterMap minusLineParse else files

/-! ### Facts about the substring and line-splitting scanners -/

theorem listHasInfix_nil_needle (h : List Char) : listHasInfix [] h = true := by
  cases h <;> simp [listHasInfix, List.isPrefixOf]

theorem listHasInfix_append_left (n h1 h2 : List Char)
    (hh : listHasInfix n h1 = true) : listHasInfix n (h1 ++ h2) = true := by
  induction h1 with
  | nil =>
    have hn : n = [] := by
      cases n with
      | nil => rfl
      | cons a t => simp [listHasInfix] at hh
    subst hn
    exact listHasInfix_nil_needle h2
  | cons c rest ih =>
    simp only [listHasInfix, Bool.or_eq_true] at hh
    rcases hh with hpre | hinf
    · have hp : n <+: (c :: rest) := by
        simpa using List.isPrefixOf_iff_prefix.mp hpre
      have hp2 : n <+: (c :: rest) ++ h2 := hp.trans (List.prefix_append _ _)
      simp only [List.cons_append, listHasInfix, Bool.or_eq_true]
      exact Or.inl (List.isPrefixOf_iff_prefix.mpr (by simpa using hp2))
    · simp only [List.cons_append, listHasInfix, Bool.or_eq_true]
      exact Or.inr (ih hinf)

theorem mem_of_listHasInfix (n h : List Char) (hh : listHasInfix n h = true) :
    ∀ c ∈ n, c ∈ h := by
  induction h with
  | nil =>
    have hn : n = [] := by
      cases n with
      | nil => rfl
      | cons a t => simp [listHasInfix] at hh
    subst hn
    intro c hc
    simp at hc
  | cons x rest ih =>
    simp only [listHasInfix, Bool.or_eq_true] at hh
    rcases hh with hpre | hinf
    · intro c hc
      have hp : n <+: (x :: rest) := by
        simpa using List.isPrefixOf_iff_prefix.mp hpre
      exact hp.subset hc
    · intro c hc
      exact List.mem_cons_of_mem _ (ih hinf c hc)

theorem splitTermAux_ne_nil (acc l : List Char) : splitTermAux acc l ≠ [] := by
  induction l generalizing acc with
  | nil => simp [splitTermAux]
  | cons c rest ih =>
    simp only [splitTermAux]
    split
    · simp
    · exact ih (c :: acc)

theorem splitTermAux_no_term (ys : List Char)
    (hy : ∀ c ∈ ys, lineTermChar c = false) (acc : List Char) :
    splitTermAux acc ys = [acc.reverse ++ ys] := by
  induction ys generalizing acc with
  | nil => simp [splitTermAux]
  | cons c rest ih =>
    have hc : lineTermChar c = false := hy c (by simp)
    simp only [splitTermAux, hc, Bool.false_eq_true, if_neg, if_false]
    rw [ih (fun d hd => hy d (by simp [hd])) (c :: acc)]
    simp

theorem dropLast_cons_ne {α : Type} (a : α) (l : List α) (h : l ≠ []) :
    (a :: l).dropLast = a :: l.dropLast := by
  cases l with
  | nil => exact absurd rfl h
  | cons b t => exact List.dropLast_cons₂

theorem getLast?_cons_ne {α : Type} (a : α) (l : List α) (h : l ≠ []) :
    (a :: l).getLast? = l.getLast? := by
  cases l with
  | nil => exact absurd rfl h
  | cons b t => exact List.getLast?_cons_cons

theorem splitTermAux_append (xs ys acc : List Char) :
    splitTermAux acc (xs ++ ys)
      = (splitTermAux acc xs).dropLast
        ++ splitTermAux (((splitTermAux acc xs).getLast?.getD []).reverse) ys := by
  induction xs generalizing acc with
  | nil => simp [splitTermAux]
  | cons c rest ih =>
    by_cases hc : lineTermChar c = true
    · simp only [List.cons_append, splitTermAux, hc, if_pos, if_true, List.append_eq]
      have hne := splitTermAux_ne_nil [] rest
      rw [ih [], dropLast_cons_ne _ _ hne, getLast?_cons_ne _ _ hne]
      simp
    · have hc' : lineTermChar c = false := by
        cases hcc : lineTermChar c
        · rfl
        · exact absurd hcc hc
      simp only [List.cons_append, splitTermAux, hc', Bool.false_eq_true,
        if_neg, if_false, List.append_eq]
      exact ih (c :: acc)

/-! ## The auto-fix engine (`src/packages/agent/src/autofix/autoFix.ts`,
`autoFixIncident`)

The engine's external collaborators are modelled as oracle fields of
`AutoFixEnv`: the two LLM proposal calls, the cached repo path, the
filesystem read used by rewrite validation, git (apply/status/checkout/
commit/push as exit codes and outputs), the sandbox runs, and the PR
creation.  Thrown exceptions are explicit error values; the enclosing
try/catch of `autoFixIncident` maps any error escaping the inner
patch-apply try/catch to the `unexpected_error` result.  The outcome
record additionally logs the observable events the claims are about:
issue comments, the touched-file list inspected by the safety gate
(`gateTouched`), the touched-file list staged into the workspace
(`staged`, set when `copyRepo`/apply runs), whether `git checkout -b` was
ever attempted (`branchAttempted`), and whether the step-4 rewrite
fallback (`generateFixRewrite` after a discarded proposal) was taken. -/

/-- The strict-diff proposal (`FixSchema` of `llm.ts`). -/
structure FixProposal where
  summary : String
  reason : String
  test_plan : List String
  diff : String
deriving Repr, DecidableEq

/-- The rewrite proposal (`FixRewriteSchema` of `llm.ts`). -/
structure FixRewrite where
  summary : String
  reason : String
  test_plan : List String
  files : List RewriteFile
deriving Repr, DecidableEq

/-- The configuration fields `autoFixIncident` reads.  `branchStem` is the
source's branch-namespace option (`AUTO_FIX_BRANCH_` followed by
`PREFIX`). -/
structure AutoFixCfg where
  mode : String
  severityFloor : String
  autoFixRepoPath : Option String
  installCommand : Option String
  testCommand : String
  defaultBranch : String
  branchStem : String
deriving Repr, DecidableEq

/-- `severityRank(severity)` from `autoFix.ts`. -/
def severityRank (severity : String) : Nat :=
  if severity = "critical" then 4
  else if severity = "high" then 3
  else if severity = "medium" then 2
  else 1

/-- `shouldAutoFix(severity)` from `autoFix.ts`. -/
def shouldAutoFix (cfg : AutoFixCfg) (severity : String) : Bool :=
  if cfg.mode ≠ "on" then false
  else if cfg.severityFloor = "all" then true
  else severityRank cfg.severityFloor ≤ severityRank severity

/-- `truncate(text, maxLength)` from `autoFix.ts`. -/
def truncate (text : String) (maxLength : Nat) : String :=
  if text.length ≤ maxLength then text
  else jsSlice text 0 maxLength ++ "…"

/-- `output.slice(-k)` — the last `k` characters. -/
def jsSliceNeg (s : String) (k : Nat) : String :=
  ⟨s.toList.drop (s.length - k)⟩

/-- The text of `commentInvalidDiff`. -/
def commentInvalidDiffText (diff : String) : String :=
  "Auto-fix failed: invalid diff generated.\n\n```\n" ++ truncate diff 800 ++ "\n```"

/-- The oracle environment of one `autoFixIncident` run. -/
structure AutoFixEnv where
  cfg : AutoFixCfg
  severity : String
  incidentId : String
  incidentTitle : String
  issueNumber : Nat
  cachedRepoPath : Option String
  proposal : Option FixProposal
  rewriteA : Option FixRewrite
  rewriteB : Option FixRewrite
  readOriginal : String → Option String
  cwd : String
  tempDir : String
  applyPatchWorkErr : Option String
  applyPatchRepoErr : Option String
  hasPackageJson : Bool
  installExit : Int
  installOutput : String
  testExit : Int
  testOutput : String
  statusOutput : String
  checkoutBaseCode : Int
  checkoutBaseOutput : String
  checkoutBranchCode : Int
  checkoutBranchOutput : String
  commitCode : Int
  commitOutput : String
  pushCode : Int
  pushOutput : String
  prCreated : Bool
  prUrl : String
  prReason : Option String

/-- The `AutoFixResult` statuses (`"skipped" | "failed" | "pr_created"`). -/
inductive AFStatus
  | skipped
  | failed
  | prCreated
deriving Repr, DecidableEq

/-- `AutoFixResult` from `autoFix.ts`. -/
structure AFResult where
  status : AFStatus
  reason : Option String
  prUrl : Option String
deriving Repr, DecidableEq

/-- The engine result plus the observable events the claims quantify
over. -/
structure AFOutcome where
  result : AFResult
  comments : List String
  gateTouched : Option (List String)
  staged : Option (List String)
  branchAttempted : Bool
  rewriteFallbackCalled : Bool
deriving Repr, DecidableEq

/-- Steps 9–11: promote to the real clone, branch, commit, push, PR. -/
def autoFixPromote (env : AutoFixEnv) (repoPath : String)
    (rw? : Option FixRewrite) (stagedL : List String) (fellBack : Bool) :
    AFOutcome :=
  let mk : AFResult → List String → Bool → AFOutcome :=
    fun r cs battempt =>
      ⟨r, cs, some stagedL, some stagedL, battempt, fellBack⟩
  if jsTruthy (jsTrim env.statusOutput) then
    mk ⟨.failed, some "dirty_repo", none⟩
      ["Auto-fix aborted: repo has uncommitted changes."] false
  else if env.checkoutBaseCode ≠ 0 then
    mk ⟨.failed, some "git_checkout_base_failed", none⟩
      ["Auto-fix failed: git checkout base error\n\n```\n" ++
        env.checkoutBaseOutput ++ "\n```"] false
  else
    let applyErr : Option String :=
      match rw? with
      | some rw => (applyRewriteFiles env.cwd repoPath rw.files).2
      | none => env.applyPatchRepoErr
    match applyErr with
    | some e =>
      -- the throw escapes to the engine's outer catch
      mk ⟨.failed, some "unexpected_error", none⟩
        ["Auto-fix failed: Error: " ++ e] false
    | none =>
      if env.checkoutBranchCode ≠ 0 then
        mk ⟨.failed, some "git_checkout_failed", none⟩
          ["Auto-fix failed: git checkout error\n\n```\n" ++
            env.checkoutBranchOutput ++ "\n```"] true
      else if env.commitCode ≠ 0 then
        mk ⟨.failed, some "git_commit_failed", none⟩
          ["Auto-fix failed: git commit error\n\n```\n" ++
            env.commitOutput ++ "\n```"] true
      else if env.pushCode ≠ 0 then
        mk ⟨.failed, some "git_push_failed", none⟩
          ["Auto-fix failed: git push error\n\n```\n" ++
            env.pushOutput ++ "\n```"] true
      else if !env.prCreated then
        mk ⟨.failed, some "pr_create_failed", none⟩
          ["Auto-fix failed to open PR: " ++ (env.prReason.getD "unknown error")]
          true
      else
        mk ⟨.prCreated, none, some env.prUrl⟩
          ["Auto-fix PR created: " ++ env.prUrl] true

/-- Steps 7–8: optional sandbox install, then the sandbox test run. -/
def autoFixSandboxSteps (env : AutoFixEnv) (repoPath : String)
    (rw? : Option FixRewrite) (stagedL : List String) (fellBack : Bool) :
    AFOutcome :=
  let mk : AFResult → List String → AFOutcome :=
    fun r cs => ⟨r, cs, some stagedL, some stagedL, false, fellBack⟩
  let installCmd := env.cfg.installCommand.map jsTrim
  if jsTruthyOpt installCmd ∧ env.hasPackageJson then
    if env.installExit ≠ 0 then
      mk ⟨.failed, some "sandbox_install_failed", none⟩
        ["Auto-fix failed during sandbox install.\n\n```\n" ++
          jsSliceNeg env.installOutput 4000 ++ "\n```"]
    else if env.testExit ≠ 0 then
      mk ⟨.failed, some "sandbox_validation_failed", none⟩
        ["Auto-fix failed during sandbox validation.\n\n```\n" ++
          jsSliceNeg env.testOutput 4000 ++ "\n```"]
    else autoFixPromote env repoPath rw? stagedL fellBack
  else if env.testExit ≠ 0 then
    mk ⟨.failed, some "sandbox_validation_failed", none⟩
      ["Auto-fix failed during sandbox validation.\n\n```\n" ++
        jsSliceNeg env.testOutput 4000 ++ "\n```"]
  else autoFixPromote env repoPath rw? stagedL fellBack

/-- The catch of the inner try: patch apply failed in the workspace, so
regenerate a rewrite, validate it, and apply it; a denylist/size/path
error from this second `applyRewriteFiles` escapes to the outer catch as
`unexpected_error`. -/
def autoFixApplyCatch (env : AutoFixEnv) (repoPath workDir : String)
    (stagedL : List String) (fellBack : Bool) (errMsg : String) : AFOutcome :=
  let mk : AFResult → List String → AFOutcome :=
    fun r cs => ⟨r, cs, some stagedL, some stagedL, false, fellBack⟩
  match env.rewriteB with
  | none =>
    mk ⟨.failed, some "invalid_diff", none⟩
      ["Auto-fix failed: Error: " ++ errMsg]
  | some rw2 =>
    let check := validateRewriteFiles env.readOriginal repoPath rw2.files
    if check.ok = false then
      mk ⟨.failed, some "rewrite_invalid", none⟩
        ["Auto-fix failed: rewrite validation failed (" ++
          check.reason.getD "undefined" ++ ")"]
    else
      match (applyRewriteFiles env.cwd workDir rw2.files).2 with
      | some e2 =>
        mk ⟨.failed, some "unexpected_error", none⟩
          ["Auto-fix failed: Error: " ++ e2]
      | none => autoFixSandboxSteps env repoPath (some rw2) stagedL fellBack

/-- Step 6: create the workspace, copy the repo, apply the proposal
(diff via `git apply`, or rewrite files), with the inner try/catch. -/
def autoFixStage (env : AutoFixEnv) (repoPath : String)
    (rw? : Option FixRewrite) (touched : List String) (fellBack : Bool) :
    AFOutcome :=
  let workDir := posixJoin env.tempDir "repo"
  let applyErr : Option String :=
    match rw? with
    | some rw => (applyRewriteFiles env.cwd workDir rw.files).2
    | none => env.applyPatchWorkErr
  match applyErr with
  | none => autoFixSandboxSteps env repoPath rw? touched fellBack
  | some err => autoFixApplyCatch env repoPath workDir touched fellBack err

/-- Step 5, the safety gate: re-check every touched path against the
denylist; a hit aborts with `unsafe_files` before any staging. -/
def autoFixGate (env : AutoFixEnv) (repoPath : String)
    (rw? : Option FixRewrite) (touched : List String) (fellBack : Bool) :
    AFOutcome :=
  match touched.find? (fun f => DENYLIST_PATHS.any (fun seg => jsIncludes f seg)) with
  | some unsafeFile =>
    ⟨⟨.failed, some "unsafe_files", none⟩,
      ["Auto-fix blocked: unsafe file in diff (" ++ unsafeFile ++ ")."],
      some touched, none, false, fellBack⟩
  | none => autoFixStage env repoPath rw? touched fellBack

/-- Step 4, the rewrite fallback (`if (!proposal)`): request a rewrite,
validate it, and continue to the gate with the rewrite's file paths as
the touched set. -/
def autoFixFallback (env : AutoFixEnv) (repoPath dPrev : String) : AFOutcome :=
  match env.rewriteA with
  | none =>
    ⟨⟨.failed, some "invalid_diff", none⟩,
      [commentInvalidDiffText (if dPrev = "" then "No diff produced." else dPrev)],
      none, none, false, true⟩
  | some rw =>
    let check := validateRewriteFiles env.readOriginal repoPath rw.files
    if check.ok = false then
      ⟨⟨.failed, some "rewrite_invalid", none⟩,
        ["Auto-fix failed: rewrite validation failed (" ++
          check.reason.getD "undefined" ++ ")"],
        none, none, false, true⟩
    else autoFixGate env repoPath (some rw) (rw.files.map (·.path)) true

/-- `autoFixIncident(input)`: guard, repo resolution, strict-diff attempt
with `validateDiff`, then fallback/gate/stage as above. -/
def autoFixIncident (env : AutoFixEnv) : AFOutcome :=
  if !shouldAutoFix env.cfg env.severity then
    ⟨⟨.skipped, some "auto_fix_disabled_or_severity", none⟩,
      [], none, none, false, false⟩
  else
    let autoFixPath := env.cfg.autoFixRepoPath.map jsTrim
    let repoPath? := if jsTruthyOpt autoFixPath then autoFixPath else env.cachedRepoPath
    if !jsTruthyOpt repoPath? then
      ⟨⟨.failed, some "AUTO_FIX_REPO_PATH not configured", none⟩,
        [], none, none, false, false⟩
    else
      let repoPath := repoPath?.getD ""
      match env.proposal with
      | some p =>
        let d := normalizeDiff p.diff
        let touched := extractDiffFiles d
        if !isUnifiedDiff d ∨ touched.isEmpty then
          autoFixFallback env repoPath d
        else if MAX_DIFF_BYTES < d.length then
          ⟨⟨.failed, some "diff_too_large", none⟩,
            ["Auto-fix failed: diff too large."], none, none, false, false⟩
        else autoFixGate env repoPath none touched false
      | none => autoFixFallback env repoPath ""

/-! ### Engine invariants -/

theorem autoFixPromote_fields (env : AutoFixEnv) (repoPath : String)
    (rw? : Option FixRewrite) (sl : List String) (fb : Bool) :
    (autoFixPromote env repoPath rw? sl fb).staged = some sl ∧
    (autoFixPromote env repoPath rw? sl fb).gateTouched = some sl ∧
    (autoFixPromote env repoPath rw? sl fb).rewriteFallbackCalled = fb := by
  unfold autoFixPromote
  dsimp only
  repeat' split
  all_goals exact ⟨rfl, rfl, rfl⟩

theorem autoFixSandboxSteps_fields (env : AutoFixEnv) (repoPath : String)
    (rw? : Option FixRewrite) (sl : List String) (fb : Bool) :
    (autoFixSandboxSteps env repoPath rw? sl fb).staged = some sl ∧
    (autoFixSandboxSteps env repoPath rw? sl fb).gateTouched = some sl ∧
    (autoFixSandboxSteps env repoPath rw? sl fb).rewriteFallbackCalled = fb := by
  unfold autoFixSandboxSteps
  dsimp only
  repeat' split
  all_goals first
    | exact ⟨rfl, rfl, rfl⟩
    | exact autoFixPromote_fields env repoPath rw? sl fb

theorem autoFixApplyCatch_fields (env : AutoFixEnv) (repoPath workDir : String)
    (sl : List String) (fb : Bool) (errMsg : String) :
    (autoFixApplyCatch env repoPath workDir sl fb errMsg).staged = some sl ∧
    (autoFixApplyCatch env repoPath workDir sl fb errMsg).gateTouched = some sl ∧
    (autoFixApplyCatch env repoPath workDir sl fb errMsg).rewriteFallbackCalled = fb := by
  unfold autoFixApplyCatch
  dsimp only
  repeat' split
  all_goals first
    | exact ⟨rfl, rfl, rfl⟩
    | apply autoFixSandboxSteps_fields

theorem autoFixStage_fields (env : AutoFixEnv) (repoPath : String)
    (rw? : Option FixRewrite) (t : List String) (fb : Bool) :
    (autoFixStage env repoPath rw? t fb).staged = some t ∧
    (autoFixStage env repoPath rw? t fb).gateTouched = some t ∧
    (autoFixStage env repoPath rw? t fb).rewriteFallbackCalled = fb := by
  unfold autoFixStage
  dsimp only
  repeat' split
  all_goals first
    | apply autoFixSandboxSteps_fields
    | apply autoFixApplyCatch_fields

/-- The predicate the safety gate evaluates is `hitsDenylist`. -/
theorem gate_pred_eq :
    (fun f => DENYLIST_PATHS.any (fun seg => jsIncludes f seg)) = hitsDenylist := rfl

theorem autoFixGate_clean (env : AutoFixEnv) (repoPath : String)
    (rw? : Option FixRewrite) (t : List String) (fb : Bool)
    (hfind : t.find? (fun f => DENYLIST_PATHS.any (fun seg => jsIncludes f seg)) = none) :
    autoFixGate env repoPath rw? t fb = autoFixStage env repoPath rw? t fb := by
  unfold autoFixGate
  rw [hfind]

theorem autoFixGate_denied (env : AutoFixEnv) (repoPath : String)
    (rw? : Option FixRewrite) (t : List String) (fb : Bool) (u : String)
    (hfind : t.find? (fun f => DENYLIST_PATHS.any (fun seg => jsIncludes f seg)) = some u) :
    autoFixGate env repoPath rw? t fb =
      ⟨⟨.failed, some "unsafe_files", none⟩,
        ["Auto-fix blocked: unsafe file in diff (" ++ u ++ ")."],
        some t, none, false, fb⟩ := by
  unfold autoFixGate
  rw [hfind]

/-- The two C1 properties, at the level of the gate. -/
theorem autoFixGate_both (env : AutoFixEnv) (repoPath : String)
    (rw? : Option FixRewrite) (t : List String) (fb : Bool) :
    (∀ ts, (autoFixGate env repoPath rw? t fb).staged = some ts →
        ∀ f ∈ ts, hitsDenylist f = false) ∧
    (∀ ts, (autoFixGate env repoPath rw? t fb).gateTouched = some ts →
        (∃ f ∈ ts, hitsDenylist f = true) →
        (autoFixGate env repoPath rw? t fb).result
            = ⟨.failed, some "unsafe_files", none⟩ ∧
        (autoFixGate env repoPath rw? t fb).comments ≠ [] ∧
        (autoFixGate env repoPath rw? t fb).staged = none ∧
        (autoFixGate env repoPath rw? t fb).branchAttempted = false) := by
  rcases hfind : t.find? (fun f => DENYLIST_PATHS.any (fun seg => jsIncludes f seg))
    with _ | u
  · rw [autoFixGate_clean env repoPath rw? t fb hfind]
    have hclean : ∀ f ∈ t, hitsDenylist f = false := by
      intro f hf
      have := List.find?_eq_none.mp hfind f hf
      simpa [hitsDenylist] using this
    constructor
    · intro ts hst
      rw [(autoFixStage_fields env repoPath rw? t fb).1] at hst
      cases hst
      exact hclean
    · intro ts hgt hex
      rw [(autoFixStage_fields env repoPath rw? t fb).2.1] at hgt
      cases hgt
      rcases hex with ⟨f, hf, hhit⟩
      rw [hclean f hf] at hhit
      cases hhit
  · rw [autoFixGate_denied env repoPath rw? t fb u hfind]
    constructor
    · intro ts hst
      simp at hst
    · intro ts hgt hex
      exact ⟨rfl, by simp, rfl, rfl⟩

theorem autoFixGate_rfc (env : AutoFixEnv) (repoPath : String)
    (rw? : Option FixRewrite) (t : List String) (fb : Bool) :
    (autoFixGate env repoPath rw? t fb).rewriteFallbackCalled = fb := by
  rcases hfind : t.find? (fun f => DENYLIST_PATHS.any (fun seg => jsIncludes f seg))
    with _ | u
  · rw [autoFixGate_clean env repoPath rw? t fb hfind]
    exact (autoFixStage_fields env repoPath rw? t fb).2.2
  · rw [autoFixGate_denied env repoPath rw? t fb u hfind]

/-- Every outcome of the step-4 fallback records that the fallback was
taken. -/
theorem autoFixFallback_rfc (env : AutoFixEnv) (repoPath dPrev : String) :
    (autoFixFallback env repoPath dPrev).rewriteFallbackCalled = true := by
  unfold autoFixFallback
  dsimp only
  repeat' split
  all_goals first
    | rfl
    | apply autoFixGate_rfc

theorem autoFixFallback_both (env : AutoFixEnv) (repoPath dPrev : String) :
    (∀ ts, (autoFixFallback env repoPath dPrev).staged = some ts →
        ∀ f ∈ ts, hitsDenylist f = false) ∧
    (∀ ts, (autoFixFallback env repoPath dPrev).gateTouched = some ts →
        (∃ f ∈ ts, hitsDenylist f = true) →
        (autoFixFallback env repoPath dPrev).result
            = ⟨.failed, some "unsafe_files", none⟩ ∧
        (autoFixFallback env repoPath dPrev).comments ≠ [] ∧
        (autoFixFallback env repoPath dPrev).staged = none ∧
        (autoFixFallback env repoPath dPrev).branchAttempted = false) := by
  unfold autoFixFallback
  dsimp only
  repeat' split
  all_goals first
    | apply autoFixGate_both
    | refine ⟨fun ts hst => by simp at hst, fun ts hgt => by simp at hgt⟩

/-- C1: every proposal that passes the safety gate into the staging
workspace touches only paths outside the denylist, and whenever the
touched-path set inspected by the gate contains a denylisted path the
engine posts an issue comment, returns `failed` with reason
`unsafe_files`, stages nothing, and never attempts to create a branch. -/
theorem autoFix_denylist_gate (env : AutoFixEnv) :
    (∀ ts, (autoFixIncident env).staged = some ts →
        ∀ f ∈ ts, hitsDenylist f = false) ∧
    (∀ ts, (autoFixIncident env).gateTouched = some ts →
        (∃ f ∈ ts, hitsDenylist f = true) →
        (autoFixIncident env).result = ⟨.failed, some "unsafe_files", none⟩ ∧
        (autoFixIncident env).comments ≠ [] ∧
        (autoFixIncident env).staged = none ∧
        (autoFixIncident env).branchAttempted = false) := by
  unfold autoFixIncident
  dsimp only
  repeat' split
  all_goals first
    | apply autoFixGate_both
    | apply autoFixFallback_both
    | refine ⟨fun ts hst => by simp at hst, fun ts hgt => by simp at hgt⟩

/-- A concrete environment whose strict-diff proposal touches `.env`. -/
def envDenyl : AutoFixEnv where
  cfg := ⟨"on", "all", some "/repo", none, "npm test", "main", "autofix"⟩
  severity := "high"
  incidentId := "i1"
  incidentTitle := "t"
  issueNumber := 1
  cachedRepoPath := none
  proposal := some ⟨"s", "r", ["tp"],
    "diff --git a/.env b/.env\n--- a/.env\n+++ b/.env\n@@\n+x"⟩
  rewriteA := none
  rewriteB := none
  readOriginal := fun _ => none
  cwd := "/"
  tempDir := "/tmp/agentic-fix-a"
  applyPatchWorkErr := none
  applyPatchRepoErr := none
  hasPackageJson := false
  installExit := 0
  installOutput := ""
  testExit := 0
  testOutput := ""
  statusOutput := ""
  checkoutBaseCode := 0
  checkoutBaseOutput := ""
  checkoutBranchCode := 0
  checkoutBranchOutput := ""
  commitCode := 0
  commitOutput := ""
  pushCode := 0
  pushOutput := ""
  prCreated := true
  prUrl := "https://example.invalid/pr/1"
  prReason := none

/-- Closed witness for `autoFix_denylist_gate`: a generated diff touching
`.env` yields `failed: unsafe_files`, a comment, no staging and no
branch. -/
theorem autoFix_denylist_gate_witness :
    (autoFixIncident envDenyl).result = ⟨.failed, some "unsafe_files", none⟩ ∧
    (autoFixIncident envDenyl).comments ≠ [] ∧
    (autoFixIncident envDenyl).staged = none ∧
    (autoFixIncident envDenyl).branchAttempted = false :=
  (autoFix_denylist_gate envDenyl).2 [".env"] (by decide)
    ⟨".env", by decide, by decide⟩

/-- C4: with the engine enabled and a repo path resolved, a present
strict-diff proposal whose normalized diff is not a unified diff or
yields no extractable touched file is discarded — the engine falls
through to the step-4 rewrite fallback; and a normalized diff that is
unified with extractable files but longer than `MAX_DIFF_BYTES = 200000`
characters is rejected with an issue comment and the result
`failed: diff_too_large`, staging nothing and creating no branch. -/
theorem autoFix_validateDiff (env : AutoFixEnv) (p : FixProposal)
    (hp : env.proposal = some p)
    (hguard : shouldAutoFix env.cfg env.severity = true)
    (hrepo : jsTruthyOpt
        (if jsTruthyOpt (env.cfg.autoFixRepoPath.map jsTrim)
         then env.cfg.autoFixRepoPath.map jsTrim
         else env.cachedRepoPath) = true) :
    ((isUnifiedDiff (normalizeDiff p.diff) = false
        ∨ extractDiffFiles (normalizeDiff p.diff) = []) →
      (autoFixIncident env).rewriteFallbackCalled = true) ∧
    (isUnifiedDiff (normalizeDiff p.diff) = true →
      extractDiffFiles (normalizeDiff p.diff) ≠ [] →
      MAX_DIFF_BYTES < (normalizeDiff p.diff).length →
      (autoFixIncident env).result = ⟨.failed, some "diff_too_large", none⟩ ∧
      (autoFixIncident env).comments = ["Auto-fix failed: diff too large."] ∧
      (autoFixIncident env).staged = none ∧
      (autoFixIncident env).branchAttempted = false) := by
  unfold autoFixIncident
  rw [hp, hguard]
  simp only [Bool.not_true, Bool.false_eq_true, if_false, hrepo, if_neg]
  constructor
  · intro hbad
    have hcond : (!isUnifiedDiff (normalizeDiff p.diff)
        || (extractDiffFiles (normalizeDiff p.diff)).isEmpty) = true := by
      rcases hbad with h | h
      · simp [h]
      · simp [h]
    simp only [Bool.not_eq_true']
    rw [if_pos (by simpa using hcond)]
    exact autoFixFallback_rfc env _ _
  · intro h1 h2 h3
    have hcond : ¬ ((!isUnifiedDiff (normalizeDiff p.diff)
        || (extractDiffFiles (normalizeDiff p.diff)).isEmpty) = true) := by
      simp [h1, List.isEmpty_iff, h2]
    rw [if_neg (by simpa using hcond), if_pos h3]
    exact ⟨rfl, rfl, rfl, rfl⟩

/-! ### A concrete over-long unified diff (witness data for C4)

A valid 47-character unified-diff header block followed by 199954 `+`
characters: total length 200001 = `MAX_DIFF_BYTES + 1`.  The facts about
it are proved through the append/replicate lemmas above because the
200․001-character list is far beyond kernel evaluation. -/

def diffBase : String := "diff --git a/x b/x\n--- a/x\n+++ b/x\n@@ -1 +1 @@\n"

def padChars : List Char := List.replicate 199954 '+'

def bigDiff : String := diffBase ++ ⟨padChars⟩

theorem bigDiff_data : bigDiff.data = diffBase.data ++ padChars := rfl

theorem padChars_cons : padChars = '+' :: List.replicate 199953 '+' := by
  show List.replicate 199954 '+' = _
  rw [show (199954 : Nat) = 199953 + 1 by norm_num, List.replicate_succ]

theorem bigDiff_length : bigDiff.length = 200001 := by
  show bigDiff.data.length = 200001
  rw [bigDiff_data, List.length_append]
  rw [show padChars.length = 199954 from by
    show (List.replicate 199954 '+').length = 199954
    rw [List.length_replicate]]
  norm_num [show diffBase.data.length = 47 from by decide]

theorem bigDiff_no_ticks : jsIncludes bigDiff "```" = false := by
  cases hb : jsIncludes bigDiff "```" with
  | false => rfl
  | true =>
    exfalso
    have hmem : fenceTick ∈ bigDiff.toList :=
      mem_of_listHasInfix _ _ hb fenceTick (by decide)
    rw [show bigDiff.toList = diffBase.data ++ padChars from rfl] at hmem
    rcases List.mem_append.mp hmem with hm | hm
    · exact absurd hm (by decide)
    · have := List.eq_of_mem_replicate hm
      simp [fenceTick] at this

theorem bigDiff_trim : jsTrim bigDiff = bigDiff := by
  have hbase : diffBase.data
      = 'd' :: ("iff --git a/x b/x\n--- a/x\n+++ b/x\n@@ -1 +1 @@\n").data := by
    decide
  have h1 : bigDiff.data.dropWhile jsIsWs = bigDiff.data := by
    rw [bigDiff_data, hbase, List.cons_append, List.dropWhile_cons]
    rw [if_neg (by decide)]
  have h2 : bigDiff.data.reverse.dropWhile jsIsWs = bigDiff.data.reverse := by
    rw [bigDiff_data, List.reverse_append]
    rw [show padChars.reverse = padChars from by
      show (List.replicate 199954 '+').reverse = _
      rw [List.reverse_replicate]
      rfl]
    rw [padChars_cons, List.cons_append, List.dropWhile_cons]
    rw [if_neg (by decide)]
  show (⟨((bigDiff.data.dropWhile jsIsWs).reverse.dropWhile jsIsWs).reverse⟩ : String)
      = bigDiff
  rw [h1, h2, List.reverse_reverse]

theorem bigDiff_normalize : normalizeDiff bigDiff = bigDiff := by
  unfold normalizeDiff
  rw [bigDiff_no_ticks]
  simpa using bigDiff_trim

theorem bigDiff_unified : isUnifiedDiff bigDiff = true := by
  unfold isUnifiedDiff
  have h1 : jsIncludes bigDiff "--- a/" = true := by
    show listHasInfix _ _ = true
    rw [show bigDiff.toList = diffBase.data ++ padChars from rfl]
    exact listHasInfix_append_left _ _ _ (by decide)
  have h2 : jsIncludes bigDiff "+++ b/" = true := by
    show listHasInfix _ _ = true
    rw [show bigDiff.toList = diffBase.data ++ padChars from rfl]
    exact listHasInfix_append_left _ _ _ (by decide)
  have h3 : jsIncludes bigDiff "@@" = true := by
    show listHasInfix _ _ = true
    rw [show bigDiff.toList = diffBase.data ++ padChars from rfl]
    exact listHasInfix_append_left _ _ _ (by decide)
  rw [h1, h2, h3]
  rfl

theorem bigDiff_extract : extractDiffFiles bigDiff = ["x"] := by
  have hpad_noterm : ∀ c ∈ padChars, lineTermChar c = false := by
    intro c hc
    rw [List.eq_of_mem_replicate hc]
    decide
  have hsplit : splitTermAux [] bigDiff.data
      = ["diff --git a/x b/x".data, "--- a/x".data, "+++ b/x".data,
         "@@ -1 +1 @@".data, padChars] := by
    rw [bigDiff_data, splitTermAux_append,
      show splitTermAux [] diffBase.data
        = ["diff --git a/x b/x".data, "--- a/x".data, "+++ b/x".data,
           "@@ -1 +1 @@".data, []] from by decide,
      splitTermAux_no_term padChars hpad_noterm]
    simp
  have hp5 : parseGitLine ⟨padChars⟩ = none := by
    unfold parseGitLine
    rw [if_neg ?hpre]
    case hpre =>
      show ¬ strStartsWith ⟨padChars⟩ "diff --git a/" = true
      unfold strStartsWith
      rw [show ("diff --git a/").toList = 'd' :: "iff --git a/".toList from by decide,
        show (⟨padChars⟩ : String).toList = padChars from rfl, padChars_cons]
      simp [List.isPrefixOf]
  unfold extractDiffFiles regexLines
  rw [show bigDiff.toList = bigDiff.data from rfl, hsplit]
  simp only [List.map_cons, List.map_nil, List.filterMap_cons]
  rw [show parseGitLine ⟨("diff --git a/x b/x").data⟩ = some "x" from by decide,
    show parseGitLine ⟨("--- a/x").data⟩ = none from by decide,
    show parseGitLine ⟨("+++ b/x").data⟩ = none from by decide,
    show parseGitLine ⟨("@@ -1 +1 @@").data⟩ = none from by decide,
    hp5]
  simp

/-- The denylist witness environment with the over-long diff instead. -/
def envBigDiff : AutoFixEnv :=
  { envDenyl with proposal := some ⟨"s", "r", ["tp"], bigDiff⟩ }

/-- Closed witness for `autoFix_validateDiff`: a valid unified diff of
length 200001 is rejected as `diff_too_large` with an issue comment. -/
theorem autoFix_validateDiff_witness :
    (autoFixIncident envBigDiff).result = ⟨.failed, some "diff_too_large", none⟩ ∧
    (autoFixIncident envBigDiff).comments = ["Auto-fix failed: diff too large."] ∧
    (autoFixIncident envBigDiff).staged = none ∧
    (autoFixIncident envBigDiff).branchAttempted = false := by
  have hdiff : (some (⟨"s", "r", ["tp"], bigDiff⟩ : FixProposal)
      : Option FixProposal) = envBigDiff.proposal := rfl
  refine (autoFix_validateDiff envBigDiff ⟨"s", "r", ["tp"], bigDiff⟩
      hdiff.symm (by decide) (by decide)).2 ?_ ?_ ?_
  · show isUnifiedDiff (normalizeDiff bigDiff) = true
    rw [bigDiff_normalize]
    exact bigDiff_unified
  · show extractDiffFiles (normalizeDiff bigDiff) ≠ []
    rw [bigDiff_normalize, bigDiff_extract]
    simp
  · show MAX_DIFF_BYTES < (normalizeDiff bigDiff).length
    rw [bigDiff_normalize, bigDiff_length]
    norm_num [MAX_DIFF_BYTES]

/-! ### C7 — characterising rewrite validation -/

theorem anchorCheckFails_false_iff (lines : List String) (content : String) :
    anchorCheckFails lines content = false ↔
      (20 ≤ lines.length →
        ∃ a ∈ anchorLines lines, 3 < a.length ∧ jsIncludes content a = true) := by
  unfold anchorCheckFails
  by_cases h20 : 20 ≤ lines.length
  · rw [if_pos h20]
    dsimp only
    have hlen : 0 < (anchorLines lines).length := by
      unfold anchorLines
      rw [List.length_append, List.length_take]
      omega
    rw [decide_eq_true hlen, Bool.true_and]
    constructor
    · intro hdec _
      have hnot : ¬ ((anchorLines lines).filter
          (fun l => 3 < l.length && jsIncludes content l)).length < 1 :=
        of_decide_eq_false hdec
      have hpos : 0 < ((anchorLines lines).filter
          (fun l => 3 < l.length && jsIncludes content l)).length := by omega
      obtain ⟨a, ha⟩ := List.exists_mem_of_length_pos hpos
      have := List.mem_filter.mp ha
      refine ⟨a, this.1, ?_, ?_⟩
      · have hb := this.2
        simp only [Bool.and_eq_true, decide_eq_true_eq] at hb
        exact hb.1
      · have hb := this.2
        simp only [Bool.and_eq_true, decide_eq_true_eq] at hb
        exact hb.2
    · intro hex
      obtain ⟨a, hmem, hlong, hinc⟩ := hex h20
      have hfmem : a ∈ (anchorLines lines).filter
          (fun l => 3 < l.length && jsIncludes content l) :=
        List.mem_filter.mpr ⟨hmem, by simp [hlong, hinc]⟩
      have hpos : 0 < ((anchorLines lines).filter
          (fun l => 3 < l.length && jsIncludes content l)).length :=
        List.length_pos.mpr (fun hnil => by simp [hnil] at hfmem)
      exact decide_eq_false (by omega)
  · rw [if_neg h20]
    simp [h20]

/-- The per-file validation predicate of the amended C7 claim: a file
passes when its original is unreadable or empty, or — for an original
with at least 20 non-blank (trailing-trimmed) lines — some anchor among
the first three and last three lines that is longer than 3 characters
occurs verbatim in the rewrite, and the rewrite is at least half the
original's length. -/
def rewriteFileOk (readF : String → Option String) (basePath : String)
    (f : RewriteFile) : Prop :=
  match readF (posixJoin basePath f.path) with
  | none => True
  | some orig =>
    orig = "" ∨
      ((20 ≤ (nonBlankLines orig).length →
          ∃ a ∈ anchorLines (nonBlankLines orig),
            3 < a.length ∧ jsIncludes f.content a = true) ∧
        orig.length ≤ 2 * f.content.length)

theorem jsTruthy_ne (orig : String) (h : jsTruthy orig = true) : orig ≠ "" := by
  intro hcon
  rw [hcon] at h
  simp [jsTruthy] at h

theorem validateRewriteFiles_ok_iff (readF : String → Option String)
    (basePath : String) (files : List RewriteFile) :
    (validateRewriteFiles readF basePath files).ok = true ↔
      ∀ f ∈ files, rewriteFileOk readF basePath f := by
  induction files with
  | nil => simp [validateRewriteFiles]
  | cons f rest ih =>
    unfold validateRewriteFiles
    rcases hread : readF (posixJoin basePath f.path) with _ | orig
    · simp only [List.forall_mem_cons, rewriteFileOk, hread, true_and]
      exact ih
    · dsimp only
      by_cases htr : jsTruthy orig = true
      · rw [if_pos htr]
        by_cases haf : anchorCheckFails (nonBlankLines orig) f.content = true
        · rw [if_pos haf]
          simp only [List.forall_mem_cons, rewriteFileOk, hread]
          constructor
          · intro hcon
            simp at hcon
          · rintro ⟨hok, _⟩
            rcases hok with hempty | ⟨hanch, _⟩
            · exact absurd hempty (jsTruthy_ne orig htr)
            · rw [(anchorCheckFails_false_iff _ _).mpr hanch] at haf
              simp at haf
        · rw [if_neg haf]
          by_cases hsz : 2 * f.content.length < orig.length
          · rw [if_pos hsz]
            simp only [List.forall_mem_cons, rewriteFileOk, hread]
            constructor
            · intro hcon
              simp at hcon
            · rintro ⟨hok, _⟩
              rcases hok with hempty | ⟨_, hsize⟩
              · exact absurd hempty (jsTruthy_ne orig htr)
              · omega
          · rw [if_neg hsz]
            rw [ih]
            simp only [List.forall_mem_cons, rewriteFileOk, hread]
            constructor
            · intro hrest
              refine ⟨Or.inr ⟨?_, by omega⟩, hrest⟩
              have : anchorCheckFails (nonBlankLines orig) f.content = false := by
                cases hc : anchorCheckFails (nonBlankLines orig) f.content
                · rfl
                · exact absurd hc haf
              exact (anchorCheckFails_false_iff _ _).mp this
            · exact fun h => h.2
      · rw [if_neg htr]
        rw [ih]
        simp only [List.forall_mem_cons, rewriteFileOk, hread]
        have hempty : orig = "" := by
          cases horig : jsTruthy orig
          · simpa [jsTruthy] using horig
          · exact absurd horig htr
        constructor
        · exact fun hrest => ⟨Or.inl hempty, hrest⟩
        · exact fun h => h.2

/-- C7 (amended): a rewrite proposal passes `validateRewriteFiles` iff
every file passes the per-file predicate — for an existing non-empty
original with at least 20 non-blank trailing-trimmed lines, at least one
of the six anchor lines *longer than 3 characters* occurs verbatim in the
rewrite (anchors of length ≤ 3 never count), and the rewrite is at least
half the original's length; and whenever validation of the step-4 rewrite
fails, the engine posts a rewrite-validation-failure comment and returns
`failed` with reason `rewrite_invalid`. -/
theorem validateRewriteFiles_spec (readF : String → Option String)
    (basePath : String) (files : List RewriteFile) :
    ((validateRewriteFiles readF basePath files).ok = true ↔
      ∀ f ∈ files, rewriteFileOk readF basePath f) ∧
    (∀ (env : AutoFixEnv) (repoPath dPrev : String) (rw : FixRewrite),
      env.rewriteA = some rw →
      (validateRewriteFiles env.readOriginal repoPath rw.files).ok = false →
      (autoFixFallback env repoPath dPrev).result
          = ⟨.failed, some "rewrite_invalid", none⟩ ∧
      (autoFixFallback env repoPath dPrev).comments ≠ []) := by
  constructor
  · exact validateRewriteFiles_ok_iff readF basePath files
  · intro env repoPath dPrev rw hA hchk
    unfold autoFixFallback
    rw [hA]
    dsimp only
    rw [if_pos hchk]
    exact ⟨rfl, by simp⟩

/-- A concrete environment whose step-4 rewrite fails the size check. -/
def envRwBad : AutoFixEnv :=
  { envDenyl with
      proposal := none
      rewriteA := some ⟨"s", "r", ["tp"], [⟨"f", "x"⟩]⟩
      readOriginal := fun _ => some "abcdefghij" }

/-- Closed witness for `validateRewriteFiles_spec`: the failing rewrite
makes the engine return `failed: rewrite_invalid` with a comment. -/
theorem validateRewriteFiles_spec_witness :
    (autoFixFallback envRwBad "/repo" "").result
        = ⟨.failed, some "rewrite_invalid", none⟩ ∧
    (autoFixFallback envRwBad "/repo" "").comments ≠ [] :=
  (validateRewriteFiles_spec envRwBad.readOriginal "/repo"
      [⟨"f", "x"⟩]).2 envRwBad "/repo" "" ⟨"s", "r", ["tp"], [⟨"f", "x"⟩]⟩
    rfl (by decide)

/-! ## C10 — sandbox executor (`src/packages/agent/src/tools/dockerSandbox.ts`) -/

/-- A bind mount of `SandboxCommand`. -/
structure SandboxMount where
  hostPath : String
  containerPath : String
  mode : Option String
deriving Repr

/-- The `SandboxCommand` input type of `dockerSandbox.ts`.  `envPairs`
models the `env` record as its entry list in insertion order. -/
structure SandboxCommand where
  image : String
  command : List String
  timeoutMs : Option Int
  workdir : Option String
  envPairs : Option (List (String × String))
  mounts : Option (List SandboxMount)
  volumesFrom : Option String
deriving Repr

/-- The `docker` argument vector assembled by `runInSandbox` before
spawning. -/
def buildSandboxArgs (cmd : SandboxCommand) : List String :=
  ["run", "--rm", "--network", "none"]
  ++ (match cmd.workdir with
      | some w => ["-w", w]
      | none => [])
  ++ (match cmd.envPairs with
      | some kvs => kvs.foldl (fun acc kv => acc ++ ["-e", kv.1 ++ "=" ++ kv.2]) []
      | none => [])
  ++ (match cmd.mounts with
      | some ms => ms.foldl
          (fun acc m =>
            acc ++ ["-v", m.hostPath ++ ":" ++ m.containerPath ++ ":" ++ m.mode.getD "ro"])
          []
      | none => [])
  ++ (match cmd.volumesFrom with
      | some v => ["--volumes-from", v]
      | none => [])
  ++ [cmd.image] ++ cmd.command

/-- One event emitted by the spawned child process, in the order the event
loop delivers them: a stdout/stderr `data` chunk, the `close` event (with a
possibly-null exit code — null in particular after a signal kill, e.g. the
SIGKILL sent by the timeout timer), or the `error` event carrying
`String(error)`. -/
inductive SandboxEvent
  | dataEvt (chunk : String)
  | closeEvt (code : Option Int)
  | errorEvt (errText : String)
deriving Repr, DecidableEq

/-- The value `runInSandbox` resolves with. -/
structure SandboxResult where
  exitCode : Int
  output : String
deriving Repr, DecidableEq

/-- A terminal event settles the promise. -/
def SandboxEvent.isTerminal : SandboxEvent → Bool
  | .dataEvt _ => false
  | _ => true

/-- The promise executor of `runInSandbox`: fold the child's events,
accumulating `output` over `data` events; the first terminal event
resolves — `close` with `code ?? 1`, `error` with exit code 1 and the
error text.  `none` means the promise never settles (no terminal event).
-/
def sandboxResolve : List SandboxEvent → String → Option SandboxResult
  | [], _ => none
  | .dataEvt s :: rest, acc => sandboxResolve rest (acc ++ s)
  | .closeEvt code :: _, acc => some ⟨code.getD 1, acc⟩
  | .errorEvt e :: _, _acc => some ⟨1, e⟩

/-- `runInSandbox`, as a function of the command and the child-process
event trace: the docker argv it builds, and the resolution value. -/
def runInSandbox (cmd : SandboxCommand) (events : List SandboxEvent) :
    List String × Option SandboxResult :=
  (buildSandboxArgs cmd, sandboxResolve events "")

theorem sandboxResolve_data_chunks (pre : List String)
    (evts : List SandboxEvent) (acc : String) :
    sandboxResolve (pre.map .dataEvt ++ evts) acc
      = sandboxResolve evts (pre.foldl (fun a s => a ++ s) acc) := by
  induction pre generalizing acc with
  | nil => simp
  | cons p ps ih =>
    simp only [List.map_cons, List.cons_append, sandboxResolve, List.foldl_cons]
    exact ih (acc ++ p)

theorem sandboxResolve_isSome_of_terminal (evts : List SandboxEvent)
    (h : ∃ ev ∈ evts, ev.isTerminal = true) :
    ∀ acc, (sandboxResolve evts acc).isSome := by
  induction evts with
  | nil => simp at h
  | cons ev rest ih =>
    intro acc
    match ev with
    | .dataEvt s =>
      have h' : ∃ e ∈ rest, e.isTerminal = true := by
        rcases h with ⟨e, he, ht⟩
        rcases List.mem_cons.mp he with rfl | hmem
        · simp [SandboxEvent.isTerminal] at ht
        · exact ⟨e, hmem, ht⟩
      exact ih h' (acc ++ s)
    | .closeEvt code => simp [sandboxResolve]
    | .errorEvt e => simp [sandboxResolve]

/-- C10: `runInSandbox` always settles by resolution, never by throwing or
rejecting: whenever the child emits a terminal event the promise resolves
with an `{exitCode, output}` pair; a spawn/runtime `error` event resolves
to exit code 1 with the error text as output; a `close` event resolves to
`code ?? 1` (so a null close code — as reported after the timeout's
SIGKILL — becomes 1, and a non-null reported code is passed through) with
the accumulated stdout+stderr output.  The timeout timer itself is
real-time machinery; its effect is visible here as the close code the
runtime reports after the kill. -/
theorem runInSandbox_resolution (cmd : SandboxCommand) (pre : List String)
    (code : Option Int) (errText : String) (rest : List SandboxEvent) :
    ((runInSandbox cmd (pre.map .dataEvt ++ [.closeEvt code] ++ rest)).2
       = some ⟨code.getD 1, pre.foldl (fun a s => a ++ s) ""⟩) ∧
    ((runInSandbox cmd (pre.map .dataEvt ++ [.errorEvt errText] ++ rest)).2
       = some ⟨1, errText⟩) ∧
    ((runInSandbox cmd (pre.map .dataEvt ++ [.closeEvt none] ++ rest)).2
       = some ⟨1, pre.foldl (fun a s => a ++ s) ""⟩) ∧
    (∀ evts, (∃ ev ∈ evts, ev.isTerminal = true) →
       ((runInSandbox cmd evts).2).isSome) := by
  refine ⟨?_, ?_, ?_, ?_⟩
  · show sandboxResolve _ "" = _
    rw [List.append_assoc, sandboxResolve_data_chunks]
    simp [sandboxResolve]
  · show sandboxResolve _ "" = _
    rw [List.append_assoc, sandboxResolve_data_chunks]
    simp [sandboxResolve]
  · show sandboxResolve _ "" = _
    rw [List.append_assoc, sandboxResolve_data_chunks]
    simp [sandboxResolve]
  · intro evts h
    exact sandboxResolve_isSome_of_terminal evts h ""

/-- Closed witness for `runInSandbox_resolution`: a concrete event trace
with a terminal event resolves. -/
theorem runInSandbox_resolution_witness :
    ((runInSandbox ⟨"node:20", ["npm", "test"], some 900000, none, none, none, none⟩
        [.dataEvt "ok", .closeEvt (some 0)]).2).isSome = true := by
  have h := (runInSandbox_resolution
      ⟨"node:20", ["npm", "test"], some 900000, none, none, none, none⟩
      [] (some 0) "" []).2.2.2
  exact h [.dataEvt "ok", .closeEvt (some 0)]
    ⟨.closeEvt (some 0), by decide, by decide⟩

/-! ## C6 — `chunkText` (`src/packages/agent/src/rag/indexRepo.ts`)

The source's `while (start < content.length)` loop is embedded with an
explicit fuel argument; `content.length` units of fuel are always enough
when `overlap < chunkSize` (the loop advances `start` by at least
`chunkSize − overlap ≥ 1` per iteration).  When `overlap ≥ chunkSize` the
JavaScript loop does not terminate; the fuel then runs out, which is
outside every theorem's precondition. -/

/-- Loop body of `chunkText`: push `content.slice(start, end)`, break when
`end` reaches the content length, else continue from
`max(0, end − overlap)` (`Nat` subtraction models the `max(0, ·)`). -/
def chunkTextGo (c : String) (chunkSize overlap : Nat) : Nat → Nat → List String
  | 0, _ => []
  | fuel + 1, start =>
    if start < c.length then
      let e := min (start + chunkSize) c.length
      let chunk := jsSlice c start e
      if e = c.length then [chunk]
      else chunk :: chunkTextGo c chunkSize overlap fuel (e - overlap)
    else []

/-- `chunkText(content, chunkSize, overlap)` from `indexRepo.ts`. -/
def chunkText (c : String) (chunkSize overlap : Nat) : List String :=
  if c.length ≤ chunkSize then [c]
  else chunkTextGo c chunkSize overlap c.length 0

theorem chunkTextGo_succ_eq (c : String) (cs o fuel start : Nat) :
    chunkTextGo c cs o (fuel + 1) start =
      if start < c.length then
        (if min (start + cs) c.length = c.length
         then [jsSlice c start (min (start + cs) c.length)]
         else jsSlice c start (min (start + cs) c.length) ::
              chunkTextGo c cs o fuel (min (start + cs) c.length - o))
      else [] := rfl

theorem chunkTextGo_spec (c : String) (cs o : Nat) (ho : o < cs) :
    ∀ fuel s, s < c.length → c.length ≤ s + cs + fuel * (cs - o) →
      (chunkTextGo c cs o (fuel + 1) s).length
          = (c.length - s - cs + (cs - o - 1)) / (cs - o) + 1
      ∧ (chunkTextGo c cs o (fuel + 1) s).getLast?
          = some (jsSlice c
              (s + ((c.length - s - cs + (cs - o - 1)) / (cs - o)) * (cs - o))
              c.length) := by
  intro fuel
  induction fuel with
  | zero =>
    intro s hs hker
    have he : min (s + cs) c.length = c.length := by omega
    have hcount : (c.length - s - cs + (cs - o - 1)) / (cs - o) = 0 :=
      Nat.div_eq_of_lt (by omega)
    rw [chunkTextGo_succ_eq, if_pos hs, he, if_pos rfl, hcount]
    simp
  | succ fuel ih =>
    intro s hs hker
    by_cases hend : c.length ≤ s + cs
    · have he : min (s + cs) c.length = c.length := by omega
      have hcount : (c.length - s - cs + (cs - o - 1)) / (cs - o) = 0 :=
        Nat.div_eq_of_lt (by omega)
      rw [chunkTextGo_succ_eq, if_pos hs, he, if_pos rfl, hcount]
      simp
    · push_neg at hend
      have he : min (s + cs) c.length = s + cs := by omega
      have hne : ¬ (s + cs = c.length) := by omega
      have hs' : s + cs - o = s + (cs - o) := by omega
      have hlt' : s + (cs - o) < c.length := by omega
      have hker' : c.length ≤ (s + (cs - o)) + cs + fuel * (cs - o) := by
        have h2 := hker
        rw [Nat.succ_mul] at h2
        omega
      obtain ⟨ihlen, ihlast⟩ := ih (s + (cs - o)) hlt' hker'
      have hsub : c.length - (s + (cs - o)) - cs = (c.length - s - cs) - (cs - o) := by
        omega
      -- the ceiling-division recurrence
      have hdiv : (c.length - s - cs + (cs - o - 1)) / (cs - o)
          = ((c.length - s - cs) - (cs - o) + (cs - o - 1)) / (cs - o) + 1 := by
        by_cases hks : c.length - s - cs ≤ cs - o
        · have h1 : (c.length - s - cs + (cs - o - 1)) / (cs - o) = 1 := by
            apply Nat.div_eq_of_lt_le
            · omega
            · omega
          have h0 : ((c.length - s - cs) - (cs - o) + (cs - o - 1)) / (cs - o) = 0 :=
            Nat.div_eq_of_lt (by omega)
          omega
        · push_neg at hks
          have heq : c.length - s - cs + (cs - o - 1)
              = ((c.length - s - cs) - (cs - o) + (cs - o - 1)) + (cs - o) := by omega
          rw [heq, Nat.add_div_right _ (by omega)]
      rw [chunkTextGo_succ_eq, if_pos hs, he, if_neg hne, hs']
      constructor
      · rw [List.length_cons, ihlen, hsub, hdiv]
      · have hnonnil : chunkTextGo c cs o (fuel + 1) (s + (cs - o)) ≠ [] := by
          intro hcon
          rw [hcon] at ihlen
          simp at ihlen
        rw [getLast?_cons_ne _ _ hnonnil, ihlast, hsub, hdiv]
        congr 2
        ring

theorem chunkText_ne_nil (c : String) (cs o : Nat) :
    chunkText c cs o ≠ [] := by
  have hgo : ∀ fuel start, start < c.length →
      chunkTextGo c cs o (fuel + 1) start ≠ [] := by
    intro fuel start hs
    simp only [chunkTextGo, if_pos hs]
    split <;> simp
  unfold chunkText
  split
  · simp
  · next h =>
    push_neg at h
    obtain ⟨fuel, hfuel⟩ : ∃ fuel, c.length = fuel + 1 := ⟨c.length - 1, by omega⟩
    rw [hfuel]
    exact hgo fuel 0 (by omega)

/-- C6: content no longer than `chunkSize` yields exactly the one chunk
`[content]`; content of length `n > chunkSize`, with `overlap < chunkSize`,
yields exactly `⌈(n − chunkSize)/(chunkSize − overlap)⌉ + 1` chunks (the
`Nat` expression `(n − cs + (cs − o − 1))/(cs − o)` is that ceiling), and
the last chunk is the slice of the content that ends at offset `n`. -/
theorem chunkText_count (c : String) (cs o : Nat) :
    (c.length ≤ cs → chunkText c cs o = [c]) ∧
    (cs < c.length → o < cs →
      (chunkText c cs o).length
          = (c.length - cs + (cs - o - 1)) / (cs - o) + 1
      ∧ (chunkText c cs o).getLast?
          = some (jsSlice c
              (((c.length - cs + (cs - o - 1)) / (cs - o)) * (cs - o))
              c.length)) := by
  constructor
  · intro h
    simp [chunkText, h]
  · intro hlen ho
    obtain ⟨fuel, hfuel⟩ : ∃ fuel, c.length = fuel + 1 :=
      ⟨c.length - 1, by omega⟩
    have hker : c.length ≤ 0 + cs + fuel * (cs - o) := by
      have hf : fuel ≤ fuel * (cs - o) := Nat.le_mul_of_pos_right fuel (by omega)
      omega
    have hmain := chunkTextGo_spec c cs o ho fuel 0 (by omega) hker
    have hunfold : chunkText c cs o = chunkTextGo c cs o (fuel + 1) 0 := by
      rw [chunkText, if_neg (by omega), hfuel]
    rw [hunfold]
    simpa using hmain

/-- Closed witness for `chunkText_count`: `"abcdefgh"` with chunk size 3
and overlap 1 yields `⌈(8−3)/2⌉ + 1 = 4` chunks, the last being the slice
`[6, 8)` = `"gh"`. -/
theorem chunkText_count_witness :
    3 < "abcdefgh".length ∧ 1 < 3 ∧
    (chunkText "abcdefgh" 3 1).length = 4 ∧
    (chunkText "abcdefgh" 3 1).getLast? = some "gh" := by
  have h := (chunkText_count "abcdefgh" 3 1).2 (by decide) (by decide)
  refine ⟨by decide, by decide, ?_, ?_⟩
  · rw [h.1]; decide
  · rw [h.2]; decide

/-! ## Repository indexer (`src/packages/agent/src/rag/indexRepo.ts`) over
the vector store (`src/packages/agent/src/memory/repo.ts`)

The store is modelled as the row list of `repo_embeddings` plus the
`repo_index_state` association (the unique index on
`(repo_key, path, chunk_index)` makes the first-match lookup below agree
with the `Map` the source builds from all returned rows).  `hash` models
`hashContent` (SHA-256, a fixed deterministic function), `emb` models
`embedText`, and the returned string list is the list of chunk contents
passed to `embedText` — the embedding calls of the run.  The filesystem
is a flat list of files (root-relative path, text content, `stat` size,
and whether the first kilobyte contains a NUL byte); the repository root
itself is assumed free of ignored segments/extensions. -/

def IGNORED_DIRS : List String :=
  [".git", "node_modules", "dist", "build", "coverage", ".cursor", ".next",
   ".turbo", "logs"]

def IGNORED_EXTENSIONS : List String :=
  [".png", ".jpg", ".jpeg", ".gif", ".webp", ".ico", ".pdf", ".zip", ".tar",
   ".gz", ".lock"]

/-- `MAX_FILE_BYTES` from `indexRepo.ts`. -/
def INDEX_MAX_FILE_BYTES : Nat := 300000

/-- `path.extname` on POSIX: the suffix of the basename from its last
dot; empty for dotfiles (leading dot), dotless names and all-dot names. -/
def pathExtname (p : String) : String :=
  let base := (splitCharList '/' p.toList).getLast?.getD []
  match base.reverse.findIdx? (· = '.') with
  | none => ""
  | some kFromEnd =>
    let i := base.length - 1 - kFromEnd
    if i = 0 then ""
    else if (base.takeWhile (· = '.')).length = base.length then ""
    else ⟨base.drop i⟩

/-- `isIgnored(filePath)` from `indexRepo.ts`. -/
def isIgnored (filePath : String) : Bool :=
  let ext : String := ⟨(pathExtname filePath).toList.map Char.toLower⟩
  if IGNORED_EXTENSIONS.contains ext then true
  else (splitSlashStr filePath).any (fun part => IGNORED_DIRS.contains part)

/-- One file of the repository tree. -/
structure SrcFile where
  relPath : String
  content : String
  byteSize : Nat
  binary : Bool
deriving Repr, DecidableEq

/-- The non-strict ancestors of a relative path (each directory level and
the path itself), as visited by the recursive `walkFiles`. -/
def ancestorPaths (relPath : String) : List String :=
  let segs := splitSlashStr relPath
  (List.range segs.length).map (fun j => joinSlash (segs.take (j + 1)))

/-- `walkFiles` keeps a file iff no directory on its path — nor the file
itself — is ignored. -/
def walkKeeps (relPath : String) : Bool :=
  (ancestorPaths relPath).all (fun p => !isIgnored p)

def walkFiles (tree : List SrcFile) : List SrcFile :=
  tree.filter (fun f => walkKeeps f.relPath)

section IndexerModel

variable {Em : Type}

/-- A `repo_embeddings` row (the `id` column is derived from the key and
omitted). -/
structure Row (Em : Type) where
  repoKey : String
  path : String
  chunkIndex : Nat
  content : String
  contentHash : String
  embedding : Option Em

/-- The vector store: `repo_embeddings` rows and `repo_index_state`. -/
structure DB (Em : Type) where
  rows : List (Row Em)
  states : List (String × String)

def emptyDB : DB Em := ⟨[], []⟩

def rowKeyMatches (k p : String) (i : Nat) (r : Row Em) : Bool :=
  r.repoKey == k && r.path == p && r.chunkIndex == i

/-- `getRepoIndexState` (SELECT by primary key). -/
def getRepoIndexState (db : DB Em) (k : String) : Option String :=
  (db.states.find? (fun st => st.1 == k)).map (·.2)

/-- `setRepoIndexState` (INSERT … ON CONFLICT UPDATE). -/
def setRepoIndexState (db : DB Em) (k h : String) : DB Em :=
  if db.states.any (fun st => st.1 == k) then
    { db with states := db.states.map (fun st => if st.1 == k then (k, h) else st) }
  else { db with states := db.states ++ [(k, h)] }

/-- `hasRepoEmbeddings` (SELECT 1 … LIMIT 1). -/
def hasRepoEmbeddings (db : DB Em) (k : String) : Bool :=
  db.rows.any (fun r => r.repoKey == k)

/-- `getRepoChunkHashes` as a lookup function `chunkIndex ↦ hash`. -/
def getRepoChunkHashes (db : DB Em) (k p : String) (i : Nat) : Option String :=
  (db.rows.find? (rowKeyMatches k p i)).map (·.contentHash)

/-- `existingHashes.size > 0`. -/
def hasChunksForPath (db : DB Em) (k p : String) : Bool :=
  db.rows.any (fun r => r.repoKey == k && r.path == p)

/-- One INSERT … ON CONFLICT (repo_key, path, chunk_index) DO UPDATE. -/
def upsertRow (rows : List (Row Em)) (c : Row Em) : List (Row Em) :=
  if rows.any (rowKeyMatches c.repoKey c.path c.chunkIndex) then
    rows.map (fun r =>
      if rowKeyMatches c.repoKey c.path c.chunkIndex r then
        { r with content := c.content, contentHash := c.contentHash,
                 embedding := c.embedding }
      else r)
  else rows ++ [c]

/-- `upsertRepoChunks`. -/
def upsertRepoChunks (db : DB Em) (chunks : List (Row Em)) : DB Em :=
  { db with rows := chunks.foldl upsertRow db.rows }

/-- `cleanupRepoChunks` (DELETE … WHERE chunk_index > maxIndex). -/
def cleanupRepoChunks (db : DB Em) (k p : String) (maxIndex : Nat) : DB Em :=
  let keep := fun (r : Row Em) =>
    !(r.repoKey == k && r.path == p && decide (maxIndex < r.chunkIndex))
  { db with rows := db.rows.filter keep }

/-- `deleteRepoChunksForPath`. -/
def deleteRepoChunksForPath (db : DB Em) (k p : String) : DB Em :=
  let keep := fun (r : Row Em) => !(r.repoKey == k && r.path == p)
  { db with rows := db.rows.filter keep }

/-- `listRepoPaths` (SELECT DISTINCT path). -/
def listRepoPaths (db : DB Em) (k : String) : List String :=
  ((db.rows.filter (fun r => r.repoKey == k)).map (·.path)).dedup

/-- The result record of `buildChunks`. -/
structure ChunkBuildResult (Em : Type) where
  chunks : List (Row Em)
  totalChunks : Nat
  skipped : Bool

/-- `buildChunks`: skip oversized and binary files; chunk the text; embed
and collect exactly the chunks whose stored hash differs. -/
def buildChunks (hash : String → String) (emb : String → Option Em)
    (cs o : Nat) (repoKey : String) (f : SrcFile)
    (existingHashes : Nat → Option String) : ChunkBuildResult Em :=
  if INDEX_MAX_FILE_BYTES < f.byteSize then ⟨[], 0, true⟩
  else if f.binary then ⟨[], 0, true⟩
  else
    let chunks := chunkText f.content cs o
    let results := (List.range chunks.length).filterMap (fun i =>
      let chunkContent := chunks.getD i ""
      let contentHash := hash chunkContent
      if existingHashes i = some contentHash then none
      else some ⟨repoKey, f.relPath, i, chunkContent, contentHash, emb chunkContent⟩)
    ⟨results, chunks.length, false⟩

/-- The body of the per-file loop of `indexRepository`, threading the
store and the list of embedded chunk contents. -/
def processFile (hash : String → String) (emb : String → Option Em)
    (cs o : Nat) (k : String) (st : DB Em × List String) (f : SrcFile) :
    DB Em × List String :=
  let db := st.1
  let existingHashes := getRepoChunkHashes db k f.relPath
  let hasAny := hasChunksForPath db k f.relPath
  let res := buildChunks hash emb cs o k f existingHashes
  if res.skipped then
    (if hasAny then deleteRepoChunksForPath db k f.relPath else db, st.2)
  else if res.totalChunks = 0 then
    (if hasAny then deleteRepoChunksForPath db k f.relPath else db, st.2)
  else
    let db1 := if 0 < res.chunks.length then upsertRepoChunks db res.chunks else db
    let db2 := cleanupRepoChunks db1 k f.relPath (res.totalChunks - 1)
    (db2, st.2 ++ res.chunks.map (·.content))

/-- `indexRepository` at a resolved `repoKey`, `headSha` and tree:
early-exit when the stored head matches and chunks exist; otherwise walk,
reconcile each file, delete rows of missing paths, and persist the new
head (when one is known). -/
def indexRepository (hash : String → String) (emb : String → Option Em)
    (cs o : Nat) (repoKey : String) (headSha : Option String)
    (tree : List SrcFile) (db : DB Em) : DB Em × List String :=
  let hasEmb := hasRepoEmbeddings db repoKey
  let existingState := getRepoIndexState db repoKey
  if headSha.isSome ∧ existingState = headSha ∧ hasEmb = true then (db, [])
  else
    let files := walkFiles tree
    let existingPaths := listRepoPaths db repoKey
    let st := files.foldl (processFile hash emb cs o repoKey) (db, [])
    let current := files.map (·.relPath)
    let missing := existingPaths.filter (fun p => !current.contains p)
    let db2 := missing.foldl (fun d p => deleteRepoChunksForPath d repoKey p) st.1
    match headSha with
    | some h => (setRepoIndexState db2 repoKey h, st.2)
    | none => (db2, st.2)

/-- Row existence at a key. -/
def hasRowB (db : DB Em) (k p : String) (i : Nat) : Bool :=
  (db.rows.find? (rowKeyMatches k p i)).isSome

end IndexerModel

/-- A file survives `buildChunks`' size and binary guards. -/
def fileKept (f : SrcFile) : Prop :=
  f.byteSize ≤ INDEX_MAX_FILE_BYTES ∧ f.binary = false

instance (f : SrcFile) : Decidable (fileKept f) := by
  unfold fileKept
  infer_instance

/-- Membership in the chunk set produced by walking a tree under the
ignore, size and binary rules. -/
def inWalkSet (cs o : Nat) (tree : List SrcFile) (p : String) (i : Nat) : Prop :=
  ∃ f ∈ walkFiles tree, f.relPath = p ∧ fileKept f ∧
    i < (chunkText f.content cs o).length

instance (cs o : Nat) (tree : List SrcFile) (p : String) (i : Nat) :
    Decidable (inWalkSet cs o tree p i) := by
  unfold inWalkSet
  infer_instance

/-! ### Lookup lemmas for the store operations -/

section IndexerLemmas

variable {Em : Type}

theorem rowKeyMatches_iff (k p : String) (i : Nat) (r : Row Em) :
    rowKeyMatches k p i r = true ↔
      r.repoKey = k ∧ r.path = p ∧ r.chunkIndex = i := by
  simp [rowKeyMatches, and_assoc]

theorem find?_cons_eq {α : Type} (p : α → Bool) (a : α) (l : List α) :
    (a :: l).find? p = if p a then some a else l.find? p := by
  cases h : p a <;> simp [List.find?_cons, h]

theorem find?_filter_keep {α : Type} (q keep : α → Bool) (l : List α)
    (h : ∀ a, q a = true → keep a = true) :
    (l.filter keep).find? q = l.find? q := by
  induction l with
  | nil => rfl
  | cons a t ih =>
    by_cases hq : q a = true
    · rw [List.filter_cons, if_pos (h a hq), find?_cons_eq, if_pos hq,
        find?_cons_eq, if_pos hq]
    · rw [List.filter_cons]
      by_cases hk : keep a = true
      · rw [if_pos hk, find?_cons_eq, if_neg hq, find?_cons_eq, if_neg hq, ih]
      · rw [if_neg hk, ih, find?_cons_eq, if_neg hq]

theorem find?_filter_drop {α : Type} (q keep : α → Bool) (l : List α)
    (h : ∀ a, q a = true → keep a = false) :
    (l.filter keep).find? q = none := by
  rw [List.find?_eq_none]
  intro x hx hq
  have hkeep := (List.mem_filter.mp hx).2
  rw [h x hq] at hkeep
  cases hkeep

theorem find?_map_pres {α : Type} (q : α → Bool) (g : α → α) (l : List α)
    (hq : ∀ a, q (g a) = q a) :
    (l.map g).find? q = (l.find? q).map g := by
  induction l with
  | nil => rfl
  | cons a t ih =>
    rw [List.map_cons, find?_cons_eq, hq a, find?_cons_eq]
    by_cases h : q a = true
    · rw [if_pos h, if_pos h]
      rfl
    · rw [if_neg h, if_neg h, ih]

theorem find?_append_or {α : Type} (q : α → Bool) (l₁ l₂ : List α) :
    (l₁ ++ l₂).find? q =
      match l₁.find? q with
      | some a => some a
      | none => l₂.find? q := by
  induction l₁ with
  | nil => rfl
  | cons a t ih =>
    rw [List.cons_append, find?_cons_eq, find?_cons_eq]
    by_cases h : q a = true
    · rw [if_pos h, if_pos h]
    · rw [if_neg h, if_neg h, ih]

theorem lookup_delete (db : DB Em) (k₀ P k' p : String) (i : Nat) :
    getRepoChunkHashes (deleteRepoChunksForPath db k₀ P) k' p i
      = if k' = k₀ ∧ p = P then none else getRepoChunkHashes db k' p i := by
  unfold getRepoChunkHashes deleteRepoChunksForPath
  dsimp only
  by_cases hcase : k' = k₀ ∧ p = P
  · rw [if_pos hcase, find?_filter_drop]
    · rfl
    · intro r hq
      obtain ⟨h1, h2, _⟩ := (rowKeyMatches_iff _ _ _ _).mp hq
      simp [h1, h2, hcase.1, hcase.2]
  · rw [if_neg hcase, find?_filter_keep]
    intro r hq
    obtain ⟨h1, h2, _⟩ := (rowKeyMatches_iff _ _ _ _).mp hq
    rcases not_and_or.mp hcase with hne | hne
    · simp [h1, h2, hne]
    · simp [h1, h2, hne]

theorem lookup_cleanup (db : DB Em) (k₀ P : String) (m : Nat) (k' p : String)
    (i : Nat) :
    getRepoChunkHashes (cleanupRepoChunks db k₀ P m) k' p i
      = if k' = k₀ ∧ p = P ∧ m < i then none
        else getRepoChunkHashes db k' p i := by
  unfold getRepoChunkHashes cleanupRepoChunks
  dsimp only
  by_cases hcase : k' = k₀ ∧ p = P ∧ m < i
  · rw [if_pos hcase, find?_filter_drop]
    · rfl
    · intro r hq
      obtain ⟨h1, h2, h3⟩ := (rowKeyMatches_iff _ _ _ _).mp hq
      simp [h1, h2, h3, hcase.1, hcase.2.1, hcase.2.2]
  · rw [if_neg hcase, find?_filter_keep]
    intro r hq
    obtain ⟨h1, h2, h3⟩ := (rowKeyMatches_iff _ _ _ _).mp hq
    rcases not_and_or.mp hcase with hne | hrest
    · simp [h1, h2, h3, hne]
    · rcases not_and_or.mp hrest with hne | hne
      · simp [h1, h2, h3, hne]
      · simp [h1, h2, h3, hne]

theorem lookup_upsertRow (rows : List (Row Em)) (c : Row Em) (k' p : String)
    (i : Nat) :
    (((upsertRow rows c).find? (rowKeyMatches k' p i)).map (·.contentHash))
      = if k' = c.repoKey ∧ p = c.path ∧ i = c.chunkIndex
        then some c.contentHash
        else (rows.find? (rowKeyMatches k' p i)).map (·.contentHash) := by
  unfold upsertRow
  by_cases hany : rows.any (rowKeyMatches c.repoKey c.path c.chunkIndex) = true
  · have hgpres : ∀ r : Row Em,
        rowKeyMatches k' p i
            (if rowKeyMatches c.repoKey c.path c.chunkIndex r = true then
              { r with content := c.content, contentHash := c.contentHash,
                       embedding := c.embedding }
            else r)
          = rowKeyMatches k' p i r := by
      intro r
      by_cases hm : rowKeyMatches c.repoKey c.path c.chunkIndex r = true
      · rw [if_pos hm]
        simp [rowKeyMatches]
      · rw [if_neg hm]
    rw [if_pos hany, find?_map_pres _ _ _ hgpres]
    by_cases hkey : k' = c.repoKey ∧ p = c.path ∧ i = c.chunkIndex
    · rw [if_pos hkey]
      have hsome : (rows.find? (rowKeyMatches k' p i)).isSome := by
        rw [List.find?_isSome]
        obtain ⟨r, hr, hq⟩ := List.any_eq_true.mp hany
        exact ⟨r, hr, by rw [hkey.1, hkey.2.1, hkey.2.2]; exact hq⟩
      obtain ⟨r₀, hr₀⟩ := Option.isSome_iff_exists.mp hsome
      have hq₀ := List.find?_some hr₀
      have hq₀' : rowKeyMatches c.repoKey c.path c.chunkIndex r₀ = true := by
        rw [← hkey.1, ← hkey.2.1, ← hkey.2.2]
        exact hq₀
      rw [hr₀]
      simp [hq₀']
    · rw [if_neg hkey]
      cases hfind : rows.find? (rowKeyMatches k' p i) with
      | none => simp [hfind]
      | some r₀ =>
        have hq₀ := List.find?_some hfind
        obtain ⟨h1, h2, h3⟩ := (rowKeyMatches_iff _ _ _ _).mp hq₀
        have hm : rowKeyMatches c.repoKey c.path c.chunkIndex r₀ = false := by
          cases hmm : rowKeyMatches c.repoKey c.path c.chunkIndex r₀
          · rfl
          · obtain ⟨g1, g2, g3⟩ := (rowKeyMatches_iff _ _ _ _).mp hmm
            exact absurd ⟨by rw [← h1, g1], by rw [← h2, g2], by rw [← h3, g3]⟩ hkey
        simp [hfind, hm]
  · rw [if_neg hany, find?_append_or]
    by_cases hkey : k' = c.repoKey ∧ p = c.path ∧ i = c.chunkIndex
    · rw [if_pos hkey]
      have hnone : rows.find? (rowKeyMatches k' p i) = none := by
        rw [List.find?_eq_none]
        intro x hx hq
        apply hany
        rw [List.any_eq_true]
        exact ⟨x, hx, by rw [← hkey.1, ← hkey.2.1, ← hkey.2.2]; exact hq⟩
      have hqc : rowKeyMatches k' p i c = true := by
        rw [rowKeyMatches_iff]
        exact ⟨hkey.1.symm, hkey.2.1.symm, hkey.2.2.symm⟩
      rw [hnone]
      simp [find?_cons_eq, hqc]
    · rw [if_neg hkey]
      have hqc : rowKeyMatches k' p i c = false := by
        cases hmm : rowKeyMatches k' p i c
        · rfl
        · obtain ⟨g1, g2, g3⟩ := (rowKeyMatches_iff _ _ _ _).mp hmm
          exact absurd ⟨g1.symm, g2.symm, g3.symm⟩ hkey
      cases hfind : rows.find? (rowKeyMatches k' p i) with
      | none => simp [hfind, find?_cons_eq, hqc]
      | some r₀ => simp [hfind]

theorem lookup_upsert_fold (chunks : List (Row Em)) :
    ∀ (rows : List (Row Em)) (k' p : String) (i : Nat),
    chunks.Pairwise (fun a b =>
      ¬(a.repoKey = b.repoKey ∧ a.path = b.path ∧ a.chunkIndex = b.chunkIndex)) →
    ((chunks.foldl upsertRow rows).find? (rowKeyMatches k' p i)).map (·.contentHash)
      = match chunks.find? (rowKeyMatches k' p i) with
        | some c => some c.contentHash
        | none => (rows.find? (rowKeyMatches k' p i)).map (·.contentHash) := by
  induction chunks with
  | nil =>
    intro rows k' p i _
    rfl
  | cons c cs ih =>
    intro rows k' p i hpw
    obtain ⟨hhead, htail⟩ := List.pairwise_cons.mp hpw
    rw [List.foldl_cons, ih (upsertRow rows c) k' p i htail, find?_cons_eq]
    by_cases hqc : rowKeyMatches k' p i c = true
    · rw [if_pos hqc]
      obtain ⟨g1, g2, g3⟩ := (rowKeyMatches_iff _ _ _ _).mp hqc
      have hcs : cs.find? (rowKeyMatches k' p i) = none := by
        rw [List.find?_eq_none]
        intro x hx hq
        obtain ⟨e1, e2, e3⟩ := (rowKeyMatches_iff _ _ _ _).mp hq
        exact hhead x hx ⟨by rw [g1, e1], by rw [g2, e2], by rw [g3, e3]⟩
      rw [hcs]
      rw [lookup_upsertRow, if_pos ⟨g1.symm, g2.symm, g3.symm⟩]
    · rw [if_neg hqc]
      cases hfind : cs.find? (rowKeyMatches k' p i) with
      | some c' => rfl
      | none =>
        have hne : ¬(k' = c.repoKey ∧ p = c.path ∧ i = c.chunkIndex) := by
          intro hcon
          have : rowKeyMatches k' p i c = true := by
            rw [rowKeyMatches_iff]
            exact ⟨hcon.1.symm, hcon.2.1.symm, hcon.2.2.symm⟩
          exact hqc this
        rw [lookup_upsertRow, if_neg hne]

theorem find?_filterMap_range {Em : Type} (mk : Nat → Option (Row Em))
    (k p : String)
    (hprop : ∀ j r, mk j = some r →
      r.repoKey = k ∧ r.path = p ∧ r.chunkIndex = j) :
    ∀ (n : Nat) (k' p' : String) (i' : Nat),
    ((List.range n).filterMap mk).find? (rowKeyMatches k' p' i')
      = if k' = k ∧ p' = p ∧ i' < n then mk i' else none := by
  intro n
  induction n with
  | zero =>
    intro k' p' i'
    rw [if_neg (by omega)]
    rfl
  | succ n ih =>
    intro k' p' i'
    rw [List.range_succ, List.filterMap_append, find?_append_or, ih]
    by_cases hkeys : k' = k ∧ p' = p
    · by_cases hin : i' < n
      · rw [if_pos ⟨hkeys.1, hkeys.2, hin⟩, if_pos ⟨hkeys.1, hkeys.2, by omega⟩]
        cases hmk : mk i' with
        | some r => rfl
        | none =>
          cases hmkn : mk n with
          | none => simp [List.filterMap, hmkn]
          | some r =>
            obtain ⟨e1, e2, e3⟩ := hprop n r hmkn
            have hq : rowKeyMatches k' p' i' r = false := by
              cases hq' : rowKeyMatches k' p' i' r
              · rfl
              · obtain ⟨g1, g2, g3⟩ := (rowKeyMatches_iff _ _ _ _).mp hq'
                omega
            simp [List.filterMap, hmkn, find?_cons_eq, hq]
      · rw [if_neg (by intro h; exact hin h.2.2)]
        by_cases heq : i' = n
        · rw [if_pos ⟨hkeys.1, hkeys.2, by omega⟩]
          cases hmkn : mk n with
          | none =>
            subst heq
            rw [hmkn]
            simp [List.filterMap, hmkn]
          | some r =>
            obtain ⟨e1, e2, e3⟩ := hprop n r hmkn
            have hq : rowKeyMatches k' p' i' r = true := by
              rw [rowKeyMatches_iff]
              exact ⟨by rw [e1, hkeys.1], by rw [e2, hkeys.2], by omega⟩
            subst heq
            rw [hmkn]
            simp [List.filterMap, hmkn, find?_cons_eq, hq]
        · rw [if_neg (by intro h; omega)]
          cases hmkn : mk n with
          | none => simp [List.filterMap, hmkn]
          | some r =>
            obtain ⟨e1, e2, e3⟩ := hprop n r hmkn
            have hq : rowKeyMatches k' p' i' r = false := by
              cases hq' : rowKeyMatches k' p' i' r
              · rfl
              · obtain ⟨g1, g2, g3⟩ := (rowKeyMatches_iff _ _ _ _).mp hq'
                omega
            simp [List.filterMap, hmkn, find?_cons_eq, hq]
    · rw [if_neg (by intro h; exact hkeys ⟨h.1, h.2.1⟩),
        if_neg (by intro h; exact hkeys ⟨h.1, h.2.1⟩)]
      cases hmkn : mk n with
      | none => simp [List.filterMap, hmkn]
      | some r =>
        obtain ⟨e1, e2, e3⟩ := hprop n r hmkn
        have hq : rowKeyMatches k' p' i' r = false := by
          cases hq' : rowKeyMatches k' p' i' r
          · rfl
          · obtain ⟨g1, g2, g3⟩ := (rowKeyMatches_iff _ _ _ _).mp hq'
            exact absurd ⟨by rw [← g1, e1], by rw [← g2, e2]⟩ hkeys
        simp [List.filterMap, hmkn, find?_cons_eq, hq]

theorem pairwise_keyDistinct_filterMap_range {Em : Type}
    (mk : Nat → Option (Row Em)) (k p : String)
    (hprop : ∀ j r, mk j = some r →
      r.repoKey = k ∧ r.path = p ∧ r.chunkIndex = j) (n : Nat) :
    ((List.range n).filterMap mk).Pairwise (fun a b =>
      ¬(a.repoKey = b.repoKey ∧ a.path = b.path ∧ a.chunkIndex = b.chunkIndex)) := by
  rw [List.pairwise_filterMap]
  have hr := List.pairwise_lt_range n
  refine hr.imp ?_
  intro a b hab r hra s hsb
  obtain ⟨_, _, e3⟩ := hprop a r hra
  obtain ⟨_, _, f3⟩ := hprop b s hsb
  intro hcon
  omega

/-- The chunk row built for index `i` of a kept file. -/
def mkChunkRow {Em : Type} (hash : String → String) (emb : String → Option Em)
    (cs o : Nat) (k : String) (f : SrcFile)
    (existing : Nat → Option String) (i : Nat) : Option (Row Em) :=
  if existing i = some (hash ((chunkText f.content cs o).getD i "")) then none
  else some ⟨k, f.relPath, i, (chunkText f.content cs o).getD i "",
             hash ((chunkText f.content cs o).getD i ""),
             emb ((chunkText f.content cs o).getD i "")⟩

theorem buildChunks_kept_eq {Em : Type} (hash : String → String)
    (emb : String → Option Em) (cs o : Nat) (k : String) (f : SrcFile)
    (existing : Nat → Option String) (hkept : fileKept f) :
    buildChunks hash emb cs o k f existing
      = ⟨(List.range (chunkText f.content cs o).length).filterMap
            (mkChunkRow hash emb cs o k f existing),
          (chunkText f.content cs o).length, false⟩ := by
  obtain ⟨hsz, hbin⟩ := hkept
  unfold buildChunks mkChunkRow
  rw [if_neg (by omega), if_neg (by simp [hbin])]

theorem buildChunks_skipped_eq {Em : Type} (hash : String → String)
    (emb : String → Option Em) (cs o : Nat) (k : String) (f : SrcFile)
    (existing : Nat → Option String) (hsk : ¬fileKept f) :
    buildChunks hash emb cs o k f existing = ⟨[], 0, true⟩ := by
  unfold buildChunks
  by_cases hsize : INDEX_MAX_FILE_BYTES < f.byteSize
  · rw [if_pos hsize]
  · rw [if_neg hsize]
    have hbin : f.binary = true := by
      cases hb : f.binary
      · exact absurd ⟨by omega, hb⟩ hsk
      · rfl
    rw [if_pos hbin]

theorem find?_none_of_no_path {Em : Type} (db : DB Em) (k P : String)
    (hno : hasChunksForPath db k P = false) (i : Nat) :
    db.rows.find? (rowKeyMatches k P i) = none := by
  rw [List.find?_eq_none]
  intro r hr hq
  obtain ⟨h1, h2, _⟩ := (rowKeyMatches_iff _ _ _ _).mp hq
  have hany : db.rows.any (fun r => r.repoKey == k && r.path == P) = true :=
    List.any_eq_true.mpr ⟨r, hr, by simp [h1, h2]⟩
  rw [hasChunksForPath] at hno
  rw [hno] at hany
  cases hany

theorem processFile_spec {Em : Type} (hash : String → String)
    (emb : String → Option Em) (cs o : Nat) (k : String) (db : DB Em)
    (es : List String) (f : SrcFile) :
    (processFile hash emb cs o k (db, es) f).1.states = db.states ∧
    (∀ k' p i, ¬(k' = k ∧ p = f.relPath) →
      getRepoChunkHashes (processFile hash emb cs o k (db, es) f).1 k' p i
        = getRepoChunkHashes db k' p i) ∧
    (fileKept f → ∀ i,
      getRepoChunkHashes (processFile hash emb cs o k (db, es) f).1 k f.relPath i
        = if i < (chunkText f.content cs o).length
          then some (hash ((chunkText f.content cs o).getD i ""))
          else none) ∧
    (¬fileKept f → ∀ i,
      getRepoChunkHashes (processFile hash emb cs o k (db, es) f).1 k f.relPath i
        = none) ∧
    ((fileKept f → ∀ i, i < (chunkText f.content cs o).length →
        getRepoChunkHashes db k f.relPath i
          = some (hash ((chunkText f.content cs o).getD i ""))) →
      (processFile hash emb cs o k (db, es) f).2 = es) := by
  by_cases hkept : fileKept f
  · have hnil := chunkText_ne_nil f.content cs o
    have htcpos : 0 < (chunkText f.content cs o).length :=
      List.length_pos.mpr hnil
    have hprop : ∀ j r,
        mkChunkRow hash emb cs o k f (getRepoChunkHashes db k f.relPath) j
          = some r →
        r.repoKey = k ∧ r.path = f.relPath ∧ r.chunkIndex = j := by
      intro j r hmk
      unfold mkChunkRow at hmk
      by_cases hc : getRepoChunkHashes db k f.relPath j
          = some (hash ((chunkText f.content cs o).getD j ""))
      · rw [if_pos hc] at hmk
        cases hmk
      · rw [if_neg hc] at hmk
        cases hmk
        exact ⟨rfl, rfl, rfl⟩
    have hpw := pairwise_keyDistinct_filterMap_range
      (mkChunkRow hash emb cs o k f (getRepoChunkHashes db k f.relPath))
      k f.relPath hprop (chunkText f.content cs o).length
    have hpf : processFile hash emb cs o k (db, es) f
        = (cleanupRepoChunks
            (if 0 < ((List.range (chunkText f.content cs o).length).filterMap
                (mkChunkRow hash emb cs o k f
                  (getRepoChunkHashes db k f.relPath))).length
             then upsertRepoChunks db
                ((List.range (chunkText f.content cs o).length).filterMap
                  (mkChunkRow hash emb cs o k f
                    (getRepoChunkHashes db k f.relPath)))
             else db)
            k f.relPath ((chunkText f.content cs o).length - 1),
          es ++ ((List.range (chunkText f.content cs o).length).filterMap
              (mkChunkRow hash emb cs o k f
                (getRepoChunkHashes db k f.relPath))).map (·.content)) := by
      unfold processFile
      dsimp only
      rw [buildChunks_kept_eq hash emb cs o k f _ hkept]
      dsimp only
      rw [if_neg (show ¬(false = true) by simp)]
      rw [if_neg (show ¬((chunkText f.content cs o).length = 0) by omega)]
    have hlook1 : ∀ (k₂ p₂ : String) (j : Nat), getRepoChunkHashes
        (if 0 < ((List.range (chunkText f.content cs o).length).filterMap
            (mkChunkRow hash emb cs o k f
              (getRepoChunkHashes db k f.relPath))).length
         then upsertRepoChunks db
            ((List.range (chunkText f.content cs o).length).filterMap
              (mkChunkRow hash emb cs o k f
                (getRepoChunkHashes db k f.relPath)))
         else db) k₂ p₂ j
        = ((((List.range (chunkText f.content cs o).length).filterMap
            (mkChunkRow hash emb cs o k f
              (getRepoChunkHashes db k f.relPath))).foldl upsertRow
                db.rows).find? (rowKeyMatches k₂ p₂ j)).map (·.contentHash) := by
      intro k₂ p₂ j
      by_cases h : 0 < ((List.range (chunkText f.content cs o).length).filterMap
          (mkChunkRow hash emb cs o k f
            (getRepoChunkHashes db k f.relPath))).length
      · rw [if_pos h]
        rfl
      · rw [if_neg h]
        have hempt : (List.range (chunkText f.content cs o).length).filterMap
            (mkChunkRow hash emb cs o k f
              (getRepoChunkHashes db k f.relPath)) = [] := by
          exact List.length_eq_zero.mp (by omega)
        rw [hempt]
        rfl
    have hstates1 : (if 0 < ((List.range (chunkText f.content cs o).length).filterMap
            (mkChunkRow hash emb cs o k f
              (getRepoChunkHashes db k f.relPath))).length
         then upsertRepoChunks db
            ((List.range (chunkText f.content cs o).length).filterMap
              (mkChunkRow hash emb cs o k f
                (getRepoChunkHashes db k f.relPath)))
         else db).states = db.states := by
      by_cases h : 0 < ((List.range (chunkText f.content cs o).length).filterMap
          (mkChunkRow hash emb cs o k f
            (getRepoChunkHashes db k f.relPath))).length
      · rw [if_pos h]
        rfl
      · rw [if_neg h]
    refine ⟨?_, ?_, ?_, ?_, ?_⟩
    · rw [hpf]
      exact hstates1
    · intro k' p i hne
      rw [hpf]
      show getRepoChunkHashes (cleanupRepoChunks _ k f.relPath _) k' p i = _
      rw [lookup_cleanup, if_neg (by intro h; exact hne ⟨h.1, h.2.1⟩)]
      rw [hlook1, lookup_upsert_fold _ _ _ _ _ hpw,
        find?_filterMap_range _ k f.relPath hprop,
        if_neg (by intro h; exact hne ⟨h.1, h.2.1⟩)]
      rfl
    · intro _ i
      rw [hpf]
      show getRepoChunkHashes (cleanupRepoChunks _ k f.relPath _) k f.relPath i = _
      rw [lookup_cleanup]
      by_cases hi : i < (chunkText f.content cs o).length
      · rw [if_neg (by omega), if_pos hi]
        rw [hlook1, lookup_upsert_fold _ _ _ _ _ hpw,
          find?_filterMap_range _ k f.relPath hprop, if_pos ⟨rfl, rfl, hi⟩]
        by_cases hc : getRepoChunkHashes db k f.relPath i
            = some (hash ((chunkText f.content cs o).getD i ""))
        · rw [show mkChunkRow hash emb cs o k f
              (getRepoChunkHashes db k f.relPath) i = none from by
                unfold mkChunkRow; rw [if_pos hc]]
          exact hc
        · rw [show mkChunkRow hash emb cs o k f
              (getRepoChunkHashes db k f.relPath) i
                = some ⟨k, f.relPath, i, (chunkText f.content cs o).getD i "",
                    hash ((chunkText f.content cs o).getD i ""),
                    emb ((chunkText f.content cs o).getD i "")⟩ from by
                unfold mkChunkRow; rw [if_neg hc]]
      · rw [if_pos ⟨rfl, rfl, by omega⟩, if_neg hi]
    · intro h
      exact absurd hkept h
    · intro hmatch
      rw [hpf]
      have hempt : (List.range (chunkText f.content cs o).length).filterMap
          (mkChunkRow hash emb cs o k f
            (getRepoChunkHashes db k f.relPath)) = [] := by
        rw [List.filterMap_eq_nil_iff]
        intro j hj
        unfold mkChunkRow
        rw [if_pos (hmatch hkept j (List.mem_range.mp hj))]
      rw [hempt]
      simp
  · have hbc := buildChunks_skipped_eq hash emb cs o k f
      (getRepoChunkHashes db k f.relPath) hkept
    have hpf : processFile hash emb cs o k (db, es) f
        = (if hasChunksForPath db k f.relPath = true
           then deleteRepoChunksForPath db k f.relPath else db, es) := by
      unfold processFile
      dsimp only
      rw [hbc]
      dsimp only
      rw [if_pos rfl]
    refine ⟨?_, ?_, ?_, ?_, ?_⟩
    · rw [hpf]
      by_cases h : hasChunksForPath db k f.relPath = true
      · rw [if_pos h]
        rfl
      · rw [if_neg h]
    · intro k' p i hne
      rw [hpf]
      by_cases h : hasChunksForPath db k f.relPath = true
      · rw [if_pos h]
        rw [show getRepoChunkHashes (deleteRepoChunksForPath db k f.relPath) k' p i
            = _ from lookup_delete db k f.relPath k' p i, if_neg hne]
      · rw [if_neg h]
    · intro h
      exact absurd h hkept
    · intro _ i
      rw [hpf]
      by_cases h : hasChunksForPath db k f.relPath = true
      · rw [if_pos h]
        rw [show getRepoChunkHashes (deleteRepoChunksForPath db k f.relPath)
              k f.relPath i
            = _ from lookup_delete db k f.relPath k f.relPath i,
          if_pos ⟨rfl, rfl⟩]
      · rw [if_neg h]
        unfold getRepoChunkHashes
        rw [find?_none_of_no_path db k f.relPath (by
          cases hh : hasChunksForPath db k f.relPath
          · rfl
          · exact absurd hh h)]
        rfl
    · intro _
      rw [hpf]

theorem loop_spec {Em : Type} (hash : String → String)
    (emb : String → Option Em) (cs o : Nat) (k : String) :
    ∀ (files : List SrcFile) (db : DB Em) (es : List String),
    files.Pairwise (fun a b => a.relPath ≠ b.relPath) →
    (files.foldl (processFile hash emb cs o k) (db, es)).1.states = db.states ∧
    (∀ k' p i, ¬(k' = k ∧ ∃ f ∈ files, f.relPath = p) →
      getRepoChunkHashes
          (files.foldl (processFile hash emb cs o k) (db, es)).1 k' p i
        = getRepoChunkHashes db k' p i) ∧
    (∀ f ∈ files, fileKept f → ∀ i,
      getRepoChunkHashes
          (files.foldl (processFile hash emb cs o k) (db, es)).1 k f.relPath i
        = if i < (chunkText f.content cs o).length
          then some (hash ((chunkText f.content cs o).getD i ""))
          else none) ∧
    (∀ f ∈ files, ¬fileKept f → ∀ i,
      getRepoChunkHashes
          (files.foldl (processFile hash emb cs o k) (db, es)).1 k f.relPath i
        = none) ∧
    ((∀ f ∈ files, fileKept f → ∀ i, i < (chunkText f.content cs o).length →
        getRepoChunkHashes db k f.relPath i
          = some (hash ((chunkText f.content cs o).getD i ""))) →
      (files.foldl (processFile hash emb cs o k) (db, es)).2 = es) := by
  intro files
  induction files with
  | nil =>
    intro db es _
    exact ⟨rfl, fun _ _ _ _ => rfl, fun f hf => absurd hf (List.not_mem_nil f),
      fun f hf => absurd hf (List.not_mem_nil f), fun _ => rfl⟩
  | cons f fs ih =>
    intro db es hpw
    obtain ⟨hf, hfs⟩ := List.pairwise_cons.mp hpw
    have hspec := processFile_spec hash emb cs o k db es f
    obtain ⟨hA, hB, hC, hD, hE⟩ := hspec
    have hih := ih (processFile hash emb cs o k (db, es) f).1
      (processFile hash emb cs o k (db, es) f).2 hfs
    rw [List.foldl_cons] at *
    obtain ⟨iA, iB, iC, iD, iE⟩ := hih
    refine ⟨?_, ?_, ?_, ?_, ?_⟩
    · rw [iA, hA]
    · intro k' p i hne
      rw [iB k' p i (by
          intro hc
          exact hne ⟨hc.1, by
            obtain ⟨g, hg, hgp⟩ := hc.2
            exact ⟨g, List.mem_cons_of_mem _ hg, hgp⟩⟩),
        hB k' p i (by
          intro hc
          exact hne ⟨hc.1, f, List.mem_cons_self _ _, hc.2.symm⟩)]
    · intro g hg hgk i
      rcases List.mem_cons.mp hg with rfl | hg'
      · rw [iB k g.relPath i (by
            intro hc
            obtain ⟨g', hg', hgp'⟩ := hc.2
            exact hf g' hg' hgp'.symm)]
        exact hC hgk i
      · exact iC g hg' hgk i
    · intro g hg hgk i
      rcases List.mem_cons.mp hg with rfl | hg'
      · rw [iB k g.relPath i (by
            intro hc
            obtain ⟨g', hg', hgp'⟩ := hc.2
            exact hf g' hg' hgp'.symm)]
        exact hD hgk i
      · exact iD g hg' hgk i
    · intro hmatch
      have hsnd : (processFile hash emb cs o k (db, es) f).2 = es :=
        hE (fun hk i hi => hmatch f (List.mem_cons_self _ _) hk i hi)
      rw [iE (by
        intro g hg hgk i hi
        rw [hB k g.relPath i (by
          intro hc
          exact hf g hg (hc.2.symm))]
        exact hmatch g (List.mem_cons_of_mem _ hg) hgk i hi), hsnd]

theorem lookup_delete_fold {Em : Type} (k : String) :
    ∀ (ps : List String) (d : DB Em) (k' p : String) (i : Nat),
    getRepoChunkHashes
        (ps.foldl (fun d q => deleteRepoChunksForPath d k q) d) k' p i
      = if k' = k ∧ p ∈ ps then none else getRepoChunkHashes d k' p i := by
  intro ps
  induction ps with
  | nil =>
    intro d k' p i
    rw [if_neg (by intro hc; exact (List.not_mem_nil p) hc.2)]
    rfl
  | cons q qs ihq =>
    intro d k' p i
    rw [List.foldl_cons, ihq, lookup_delete]
    by_cases h1 : k' = k
    · by_cases h2 : p ∈ qs
      · rw [if_pos ⟨h1, h2⟩, if_pos ⟨h1, List.mem_cons_of_mem _ h2⟩]
      · rw [if_neg (by intro hc; exact h2 hc.2)]
        by_cases h3 : p = q
        · rw [if_pos ⟨h1, h3⟩,
            if_pos ⟨h1, by rw [h3]; exact List.mem_cons_self _ _⟩]
        · rw [if_neg (by intro hc; exact h3 hc.2),
            if_neg (by
              intro hc
              rcases List.mem_cons.mp hc.2 with h | h
              · exact h3 h
              · exact h2 h)]
    · rw [if_neg (fun hc => h1 hc.1), if_neg (fun hc => h1 hc.1),
        if_neg (fun hc => h1 hc.1)]

theorem states_delete_fold {Em : Type} (k : String) :
    ∀ (ps : List String) (d : DB Em),
    (ps.foldl (fun d q => deleteRepoChunksForPath d k q) d).states = d.states := by
  intro ps
  induction ps with
  | nil => intro d; rfl
  | cons q qs ihq => intro d; rw [List.foldl_cons, ihq]; rfl

theorem rows_set {Em : Type} (db : DB Em) (k h : String) :
    (setRepoIndexState db k h).rows = db.rows := by
  unfold setRepoIndexState
  split <;> rfl

theorem hasRowB_set {Em : Type} (db : DB Em) (k h k' p : String) (i : Nat) :
    hasRowB (setRepoIndexState db k h) k' p i = hasRowB db k' p i := by
  unfold hasRowB
  rw [rows_set]

theorem hasRowB_eq_isSome {Em : Type} (db : DB Em) (k p : String) (i : Nat) :
    hasRowB db k p i = (getRepoChunkHashes db k p i).isSome := by
  unfold hasRowB getRepoChunkHashes
  cases db.rows.find? (rowKeyMatches k p i) <;> rfl

theorem state_set {Em : Type} (db : DB Em) (k h : String) :
    getRepoIndexState (setRepoIndexState db k h) k = some h := by
  unfold getRepoIndexState setRepoIndexState
  by_cases hany : db.states.any (fun st => st.1 == k)
  · rw [if_pos hany]
    dsimp only
    obtain ⟨st, hstmem, hstk⟩ := List.any_eq_true.mp hany
    have : ∀ (l : List (String × String)), (∃ s ∈ l, s.1 == k) →
        (l.map (fun st => if st.1 == k then (k, h) else st)).find?
            (fun st => st.1 == k) = some (k, h) := by
      intro l
      induction l with
      | nil => intro hc; obtain ⟨s, hs, _⟩ := hc; exact absurd hs (List.not_mem_nil s)
      | cons s l' ihl =>
        intro hex
        rw [List.map_cons, find?_cons_eq]
        by_cases hsk : s.1 == k
        · rw [if_pos hsk, if_pos (by simp)]
        · rw [if_neg hsk, if_neg (by simpa using hsk)]
          apply ihl
          obtain ⟨s', hs', hs'k⟩ := hex
          rcases List.mem_cons.mp hs' with rfl | hmem
          · exact absurd hs'k (by simpa using hsk)
          · exact ⟨s', hmem, hs'k⟩
    rw [this db.states ⟨st, hstmem, hstk⟩]
    rfl
  · rw [if_neg hany]
    dsimp only
    rw [find?_append_or]
    rw [show db.states.find? (fun st => st.1 == k) = none from by
      rw [List.find?_eq_none]
      intro s hs hk
      exact hany (List.any_eq_true.mpr ⟨s, hs, hk⟩)]
    simp [List.find?]

theorem hasEmb_of_hasRow {Em : Type} (db : DB Em) (k p : String) (i : Nat)
    (h : hasRowB db k p i = true) : hasRepoEmbeddings db k = true := by
  unfold hasRowB at h
  obtain ⟨r, hr⟩ := Option.isSome_iff_exists.mp h
  obtain ⟨h1, _, _⟩ := (rowKeyMatches_iff _ _ _ _).mp (List.find?_some hr)
  exact List.any_eq_true.mpr
    ⟨r, List.mem_of_find?_eq_some hr, by simp [h1]⟩

theorem mem_listRepoPaths_of_hasRow {Em : Type} (db : DB Em) (k p : String)
    (i : Nat) (h : hasRowB db k p i = true) : p ∈ listRepoPaths db k := by
  unfold hasRowB at h
  obtain ⟨r, hr⟩ := Option.isSome_iff_exists.mp h
  obtain ⟨h1, h2, _⟩ := (rowKeyMatches_iff _ _ _ _).mp (List.find?_some hr)
  unfold listRepoPaths
  exact List.mem_dedup.mpr (List.mem_map.mpr
    ⟨r, List.mem_filter.mpr ⟨List.mem_of_find?_eq_some hr, by simp [h1]⟩, h2⟩)

theorem pairwise_path_inj {l : List SrcFile}
    (hpw : l.Pairwise (fun a b => a.relPath ≠ b.relPath)) :
    ∀ a ∈ l, ∀ b ∈ l, a.relPath = b.relPath → a = b := by
  induction l with
  | nil => intro a ha; exact absurd ha (List.not_mem_nil a)
  | cons x xs ihl =>
    obtain ⟨hx, hxs⟩ := List.pairwise_cons.mp hpw
    intro a ha b hb hab
    rcases List.mem_cons.mp ha with rfl | ha' <;>
      rcases List.mem_cons.mp hb with rfl | hb'
    · rfl
    · exact absurd hab (hx b hb')
    · exact absurd hab.symm (hx a ha')
    · exact ihl hxs a ha' b hb' hab

theorem indexRepository_run_good {Em : Type} (hash : String → String)
    (emb : String → Option Em) (cs o : Nat) (k h : String)
    (tree : List SrcFile) (db : DB Em)
    (hnd : (walkFiles tree).Pairwise (fun a b => a.relPath ≠ b.relPath))
    (hgood : getRepoIndexState db k = some h → hasRepoEmbeddings db k = true →
      (∀ p i, hasRowB db k p i = true ↔ inWalkSet cs o tree p i)) :
    (∀ p i, hasRowB (indexRepository hash emb cs o k (some h) tree db).1 k p i
        = true ↔ inWalkSet cs o tree p i) ∧
    getRepoIndexState (indexRepository hash emb cs o k (some h) tree db).1 k
      = some h := by
  unfold indexRepository
  dsimp only
  by_cases hexit : (some h : Option String).isSome = true ∧
      getRepoIndexState db k = some h ∧ hasRepoEmbeddings db k = true
  · rw [if_pos hexit]
    exact ⟨hgood hexit.2.1 hexit.2.2, hexit.2.1⟩
  · rw [if_neg hexit]
    dsimp only
    obtain ⟨lA, lB, lC, lD, _⟩ :=
      loop_spec hash emb cs o k (walkFiles tree) db [] hnd
    constructor
    · intro p i
      rw [hasRowB_set, hasRowB_eq_isSome, lookup_delete_fold]
      by_cases hp : ∃ f ∈ walkFiles tree, f.relPath = p
      · obtain ⟨f, hfmem, hfp⟩ := hp
        subst hfp
        rw [if_neg (by
          intro hc
          have := List.mem_filter.mp hc.2
          have hcontains : ((walkFiles tree).map (·.relPath)).contains f.relPath
              = true :=
            List.elem_eq_true_of_mem (List.mem_map.mpr ⟨f, hfmem, rfl⟩)
          exact absurd hcontains (by simpa using this.2))]
        by_cases hkept : fileKept f
        · rw [lC f hfmem hkept i]
          constructor
          · intro hs
            by_cases hi : i < (chunkText f.content cs o).length
            · exact ⟨f, hfmem, rfl, hkept, hi⟩
            · rw [if_neg hi] at hs
              cases hs
          · intro hw
            obtain ⟨g, hg, hgp, _, hgi⟩ := hw
            have hgf : g = f := pairwise_path_inj hnd g hg f hfmem hgp
            subst hgf
            rw [if_pos hgi]
            rfl
        · rw [lD f hfmem hkept i]
          constructor
          · intro hs
            cases hs
          · intro hw
            obtain ⟨g, hg, hgp, hgk, _⟩ := hw
            have hgf : g = f := pairwise_path_inj hnd g hg f hfmem hgp
            subst hgf
            exact absurd hgk hkept
      · have hrhs : ¬inWalkSet cs o tree p i := by
          intro hw
          obtain ⟨g, hg, hgp, _, _⟩ := hw
          exact hp ⟨g, hg, hgp⟩
        constructor
        · intro hs
          by_cases hmiss : p ∈ (listRepoPaths db k).filter
              (fun q => !((walkFiles tree).map (·.relPath)).contains q)
          · rw [if_pos ⟨rfl, hmiss⟩] at hs
            cases hs
          · rw [if_neg (by intro hc; exact hmiss hc.2)] at hs
            rw [lB k p i (by intro hc; exact hp hc.2)] at hs
            exfalso
            apply hmiss
            apply List.mem_filter.mpr
            refine ⟨mem_listRepoPaths_of_hasRow db k p i
              (by rw [hasRowB_eq_isSome]; exact hs), ?_⟩
            simp only [Bool.not_eq_eq_eq_not, Bool.not_true]
            by_cases hcon : ((walkFiles tree).map (·.relPath)).contains p = true
            · exfalso
              obtain ⟨g, hg, hgp⟩ := List.mem_map.mp
                (List.mem_of_elem_eq_true hcon)
              exact hp ⟨g, hg, hgp⟩
            · simpa using hcon
        · intro hw
          exact absurd hw hrhs
    · have hst1 : ∀ (d : DB Em),
          getRepoIndexState (setRepoIndexState d k h) k = some h := fun d =>
        state_set d k h
      exact hst1 _

theorem indexRepository_early {Em : Type} (hash : String → String)
    (emb : String → Option Em) (cs o : Nat) (k H : String)
    (tree : List SrcFile) (db : DB Em)
    (hst : getRepoIndexState db k = some H)
    (hemb : hasRepoEmbeddings db k = true) :
    indexRepository hash emb cs o k (some H) tree db = (db, []) := by
  unfold indexRepository
  dsimp only
  rw [if_pos ⟨rfl, hst, hemb⟩]

theorem indexRepository_state {Em : Type} (hash : String → String)
    (emb : String → Option Em) (cs o : Nat) (k H : String)
    (tree : List SrcFile) (db : DB Em) :
    getRepoIndexState (indexRepository hash emb cs o k (some H) tree db).1 k
      = some H := by
  unfold indexRepository
  dsimp only
  by_cases hexit : (some H : Option String).isSome = true ∧
      getRepoIndexState db k = some H ∧ hasRepoEmbeddings db k = true
  · rw [if_pos hexit]
    exact hexit.2.1
  · rw [if_neg hexit]
    dsimp only
    exact state_set _ _ _

end IndexerLemmas

/-- C2: after `indexRepository` completes at HEAD revision `H` — the store
being whatever state any prior sequence of completed runs (each at its own
head, over the tree `F head`, with per-walk distinct paths) left behind
from an empty store — the chunk rows stored under `repoKey` are exactly
the `(path, chunkIndex)` pairs of the walk of the tree at `H` under the
ignore, size and binary rules, and `repo_index_state` maps `repoKey`
to `H`. -/
theorem indexRepository_converges {Em : Type} (hash : String → String)
    (emb : String → Option Em) (cs o : Nat) (k : String)
    (F : String → List SrcFile)
    (hnd : ∀ h, (walkFiles (F h)).Pairwise (fun a b => a.relPath ≠ b.relPath))
    (runs : List String) (H : String) :
    (∀ p i,
      hasRowB ((runs ++ [H]).foldl
          (fun d h => (indexRepository hash emb cs o k (some h) (F h) d).1)
          emptyDB) k p i = true
        ↔ inWalkSet cs o (F H) p i) ∧
    getRepoIndexState ((runs ++ [H]).foldl
        (fun d h => (indexRepository hash emb cs o k (some h) (F h) d).1)
        emptyDB) k = some H := by
  have hchain : ∀ (rs : List String),
      (rs.foldl (fun d h => (indexRepository hash emb cs o k (some h) (F h) d).1)
        emptyDB) = emptyDB ∨
      ∃ H', (∀ p i,
          hasRowB (rs.foldl
              (fun d h => (indexRepository hash emb cs o k (some h) (F h) d).1)
              emptyDB) k p i = true ↔ inWalkSet cs o (F H') p i) ∧
        getRepoIndexState (rs.foldl
            (fun d h => (indexRepository hash emb cs o k (some h) (F h) d).1)
            emptyDB) k = some H' := by
    intro rs
    induction rs using List.reverseRecOn with
    | nil => exact Or.inl rfl
    | append_singleton rs' r ihr =>
      right
      refine ⟨r, ?_⟩
      rw [List.foldl_append, List.foldl_cons, List.foldl_nil]
      apply indexRepository_run_good hash emb cs o k r (F r) _ (hnd r)
      intro hst hemb
      rcases ihr with heq | ⟨H', hinv, hst'⟩
      · rw [heq] at hemb
        exact absurd hemb (by simp [hasRepoEmbeddings, emptyDB])
      · have hH : H' = r := Option.some.inj (hst'.symm.trans hst)
        subst hH
        exact hinv
  rw [List.foldl_append, List.foldl_cons, List.foldl_nil]
  apply indexRepository_run_good hash emb cs o k H (F H) _ (hnd H)
  intro hst hemb
  rcases hchain runs with heq | ⟨H', hinv, hst'⟩
  · rw [heq] at hemb
    exact absurd hemb (by simp [hasRepoEmbeddings, emptyDB])
  · have hH : H' = H := Option.some.inj (hst'.symm.trans hst)
    subst hH
    exact hinv

theorem indexRepository_converges_witness :
    (∀ p i,
      hasRowB ((["h1"] ++ ["h2"]).foldl
          (fun d h => (indexRepository (fun s => s)
            (fun _ => some ()) 4 1 "r" (some h)
            ((fun _ => [⟨"a.txt", "hello", 5, false⟩]) h) d).1)
          emptyDB) "r" p i = true
        ↔ inWalkSet 4 1
            ((fun (_ : String) => [⟨"a.txt", "hello", 5, false⟩]) "h2") p i) ∧
    getRepoIndexState ((["h1"] ++ ["h2"]).foldl
        (fun d h => (indexRepository (fun s => s)
          (fun _ => some ()) 4 1 "r" (some h)
          ((fun _ => [⟨"a.txt", "hello", 5, false⟩]) h) d).1)
        emptyDB) "r" = some "h2" :=
  indexRepository_converges (fun s => s) (fun _ => some ()) 4 1 "r"
    (fun _ => [⟨"a.txt", "hello", 5, false⟩])
    (fun _ => by
      show (walkFiles [⟨"a.txt", "hello", 5, false⟩]).Pairwise
        (fun a b => a.relPath ≠ b.relPath)
      decide)
    ["h1"] "h2"

/-- C5: a second `indexRepository` run immediately after a first one at the
same HEAD issues zero embedding calls; the run early-exits (returning the
store untouched and embedding nothing) when the stored index state matches
HEAD and chunk rows exist for the repo key; and `buildChunks` never
re-embeds or upserts a chunk whose stored content hash equals the newly
computed hash of its content. -/
theorem indexRepository_second_run_no_embeds {Em : Type}
    (hash : String → String) (emb : String → Option Em) (cs o : Nat)
    (k H : String) (tree : List SrcFile) (db : DB Em)
    (hnd : (walkFiles tree).Pairwise (fun a b => a.relPath ≠ b.relPath)) :
    (indexRepository hash emb cs o k (some H) tree
        (indexRepository hash emb cs o k (some H) tree db).1).2 = [] ∧
    (getRepoIndexState db k = some H → hasRepoEmbeddings db k = true →
      indexRepository hash emb cs o k (some H) tree db = (db, [])) ∧
    (∀ (f : SrcFile) (existing : Nat → Option String) (r : Row Em),
      r ∈ (buildChunks hash emb cs o k f existing).chunks →
      existing r.chunkIndex ≠ some r.contentHash) := by
  refine ⟨?_, fun hst hemb => indexRepository_early hash emb cs o k H tree db
    hst hemb, ?_⟩
  · by_cases hkeptex : ∃ f ∈ walkFiles tree, fileKept f
    · have hemb1 : hasRepoEmbeddings
          (indexRepository hash emb cs o k (some H) tree db).1 k = true := by
        by_cases hexit1 : (some H : Option String).isSome = true ∧
            getRepoIndexState db k = some H ∧ hasRepoEmbeddings db k = true
        · rw [indexRepository_early hash emb cs o k H tree db
            hexit1.2.1 hexit1.2.2]
          exact hexit1.2.2
        · obtain ⟨hiff, _⟩ := indexRepository_run_good hash emb cs o k H tree
            db hnd (fun hst hemb => absurd ⟨rfl, hst, hemb⟩ hexit1)
          obtain ⟨f, hfmem, hfk⟩ := hkeptex
          exact hasEmb_of_hasRow _ k f.relPath 0 ((hiff f.relPath 0).mpr
            ⟨f, hfmem, rfl, hfk,
              List.length_pos.mpr (chunkText_ne_nil f.content cs o)⟩)
      rw [indexRepository_early hash emb cs o k H tree _
        (indexRepository_state hash emb cs o k H tree db) hemb1]
    · by_cases hexit2 : (some H : Option String).isSome = true ∧
          getRepoIndexState (indexRepository hash emb cs o k (some H) tree
            db).1 k = some H ∧
          hasRepoEmbeddings (indexRepository hash emb cs o k (some H) tree
            db).1 k = true
      · rw [indexRepository_early hash emb cs o k H tree _
          hexit2.2.1 hexit2.2.2]
      · have hgen : ∀ (d : DB Em), ¬((some H : Option String).isSome = true ∧
            getRepoIndexState d k = some H ∧
            hasRepoEmbeddings d k = true) →
            (indexRepository hash emb cs o k (some H) tree d).2 = [] := by
          intro d hex
          unfold indexRepository
          dsimp only
          rw [if_neg hex]
          dsimp only
          obtain ⟨_, _, _, _, lE2⟩ :=
            loop_spec hash emb cs o k (walkFiles tree) d [] hnd
          exact lE2 (fun g hg hgk => absurd ⟨g, hg, hgk⟩ hkeptex)
        exact hgen _ hexit2
  · intro f existing r hr
    unfold buildChunks at hr
    by_cases hs1 : INDEX_MAX_FILE_BYTES < f.byteSize
    · rw [if_pos hs1] at hr
      exact absurd hr (List.not_mem_nil r)
    · rw [if_neg hs1] at hr
      by_cases hs2 : f.binary = true
      · rw [if_pos hs2] at hr
        exact absurd hr (List.not_mem_nil r)
      · rw [if_neg hs2] at hr
        dsimp only at hr
        obtain ⟨i, _, hmk⟩ := List.mem_filterMap.mp hr
        by_cases hc : existing i
            = some (hash ((chunkText f.content cs o).getD i ""))
        · rw [if_pos hc] at hmk
          cases hmk
        · rw [if_neg hc] at hmk
          cases hmk
          exact hc

theorem indexRepository_second_run_no_embeds_witness :
    (indexRepository (fun s => s) (fun _ => some ()) 4 1 "r" (some "h")
        [⟨"a.txt", "hello", 5, false⟩]
        (indexRepository (fun s => s) (fun _ => some ()) 4 1 "r" (some "h")
          [⟨"a.txt", "hello", 5, false⟩] (emptyDB : DB Unit)).1).2 = [] ∧
    (getRepoIndexState (emptyDB : DB Unit) "r" = some "h" →
      hasRepoEmbeddings (emptyDB : DB Unit) "r" = true →
      indexRepository (fun s => s) (fun _ => some ()) 4 1 "r" (some "h")
        [⟨"a.txt", "hello", 5, false⟩] (emptyDB : DB Unit)
        = ((emptyDB : DB Unit), [])) ∧
    (∀ (f : SrcFile) (existing : Nat → Option String) (r : Row Unit),
      r ∈ (buildChunks (fun s => s) (fun _ => some ()) 4 1 "r" f
        existing).chunks →
      existing r.chunkIndex ≠ some r.contentHash) :=
  indexRepository_second_run_no_embeds (fun s => s) (fun _ => some ())
    4 1 "r" "h" [⟨"a.txt", "hello", 5, false⟩] emptyDB (by decide)

/-- C8: with preference `auto` the first available provider in the order
openai, anthropic, gemini is returned (`none` when no key is available);
with an explicit preference that provider is returned iff its key is
available. -/
theorem resolveProvider_spec (models : LlmModels)
    (okey akey gkey : Option String) :
    (resolveProvider models .auto okey akey gkey =
      (if jsTruthyOpt okey then some (.openai, models.openaiModel)
       else if jsTruthyOpt akey then some (.anthropic, models.anthropicModel)
       else if jsTruthyOpt gkey then some (.gemini, models.geminiModel)
       else none)) ∧
    (resolveProvider models .openai okey akey gkey =
      (if jsTruthyOpt okey then some (.openai, models.openaiModel) else none)) ∧
    (resolveProvider models .anthropic okey akey gkey =
      (if jsTruthyOpt akey then some (.anthropic, models.anthropicModel) else none)) ∧
    (resolveProvider models .gemini okey akey gkey =
      (if jsTruthyOpt gkey then some (.gemini, models.geminiModel) else none)) := by
  refine ⟨rfl, rfl, rfl, rfl⟩

end IncidentAgent
